import Mathlib

/-!
Verification development for the Wallapop fraud-detection pipeline
(`poller/regex_analyzer.py` and `poller/poller.py`).

Texts are modelled as `List Char` (`Str`).  Python strings are lower-cased
with an ASCII lowering (all keyword matching in the source happens on
lower-cased text; the inputs appearing in the claims contain no upper-case
non-ASCII letters).  Regular-expression matching from the source is
hand-translated into explicit scanners over `Str`; scanners that advance by
a variable amount use a fuel argument (`fuel = length + 1` at every call
site, so the fuel never runs out: it is a totality device only).
Monetary amounts and statistics are exact rationals (`ℚ`); the source's
`round(x, 2)` display rounding of floats is not modelled, and the standard
deviation recorded by the aggregator is represented by the variance it is
the square root of (`stdevSq`), which keeps the development in exact
arithmetic while preserving all order/equality facts used by the claims.
-/

abbrev Str := List Char

def str (s : String) : Str := s.toList

/-- ASCII lowering of one character, model of Python `str.lower` on the
inputs considered (no upper-case non-ASCII letters occur in them). -/
def lowerChar (c : Char) : Char := c.toLower

def toLowerStr (s : Str) : Str := s.map lowerChar

/-- Python regex word character `\w` (ASCII approximation). -/
def isWordChar (c : Char) : Bool := c.isAlphanum || c = '_'

/-- Python regex `\s`. -/
def isSpaceChar (c : Char) : Bool := c.isWhitespace

/-- `\b` on the left edge of a match whose first character is a word
character: the previous character (if any) must not be a word character. -/
def boundaryL (prev : Option Char) : Bool :=
  match prev with
  | none => true
  | some c => !isWordChar c

/-- `\b` on the right edge of a match whose last character is a word
character: the next character (if any) must not be a word character. -/
def boundaryR (s : Str) : Bool :=
  match s with
  | [] => true
  | c :: _ => !isWordChar c

/-- `s` starts with `p` (exact characters). -/
def startsWith : Str → Str → Bool
  | _, [] => true
  | [], _ :: _ => false
  | c :: cs, p :: ps => c = p && startsWith cs ps

/-- `s` starts with `p`, comparing case-insensitively (`p` is given in
lower case; model of `re.IGNORECASE` literals). -/
def startsWithCI : Str → Str → Bool
  | _, [] => true
  | [], _ :: _ => false
  | c :: cs, p :: ps => lowerChar c = p && startsWithCI cs ps

/-- Python `sub in s` (substring containment, exact characters). -/
def containsSub (s sub : Str) : Bool :=
  match s with
  | [] => startsWith [] sub
  | _ :: cs => startsWith s sub || containsSub cs sub

/-- Python `s.replace(pat, rep)` (non-overlapping, left to right).  The
source only calls this with a non-empty `pat` except for
`best.replace(brand or "", "")`, where both `pat` and `rep` are empty and
the call is the identity; an empty `pat` is therefore mapped to the
identity. -/
def replaceAll (s pat rep : Str) : Str :=
  if pat = [] then s else go (s.length + 1) s
where
  go : Nat → Str → Str
    | 0, rest => rest
    | _ + 1, [] => []
    | fuel + 1, c :: cs =>
      if startsWith (c :: cs) pat then
        rep ++ go fuel ((c :: cs).drop pat.length)
      else
        c :: go fuel cs

/-- Python `text.split('\n')`. -/
def splitLines : Str → List Str
  | [] => [[]]
  | c :: cs =>
    if c = '\n' then
      [] :: splitLines cs
    else
      match splitLines cs with
      | [] => [[c]]
      | l :: ls => (c :: l) :: ls

/-- Python `'\n'.join(lines)`. -/
def joinLines (ls : List Str) : Str :=
  match ls with
  | [] => []
  | [l] => l
  | l :: ls => l ++ '\n' :: joinLines ls

theorem splitLines_ne_nil (s : Str) : splitLines s ≠ [] := by
  cases s with
  | nil => simp [splitLines]
  | cons c cs =>
    simp only [splitLines]
    split
    · simp
    · cases h : splitLines cs <;> simp

theorem joinLines_splitLines (s : Str) : joinLines (splitLines s) = s := by
  induction s with
  | nil => rfl
  | cons c cs ih =>
    simp only [splitLines]
    split
    · subst c
      cases h : splitLines cs with
      | nil => exact absurd h (splitLines_ne_nil cs)
      | cons l ls => simp only [joinLines]; rw [h] at ih; simp_all [joinLines]
    · cases h : splitLines cs with
      | nil => exact absurd h (splitLines_ne_nil cs)
      | cons l ls =>
        rw [h] at ih
        cases ls <;> simp_all [joinLines]

/-!
## Generic regex-scan machinery

Python's `re.findall` scans left to right: at each position it tries the
pattern; on success it records the captures and resumes after the match,
on failure it advances one character.  `findAllAux` mirrors this; the
matcher receives the previous character (for `\b`) and the current suffix
and returns the capture and the number of characters consumed (≥ 1 for
every pattern below).
-/

def findAllAux {α : Type} (m : Option Char → Str → Option (α × Nat)) :
    Nat → Option Char → Str → List α
  | 0, _, _ => []
  | _ + 1, _, [] => []
  | fuel + 1, prev, c :: cs =>
    match m prev (c :: cs) with
    | some (a, n) =>
        a :: findAllAux m fuel (((c :: cs).take n).getLast?) ((c :: cs).drop n)
    | none => findAllAux m fuel (some c) cs

def findAll {α : Type} (m : Option Char → Str → Option (α × Nat)) (s : Str) : List α :=
  findAllAux m (s.length + 1) none s

def findFirst {α : Type} (m : Option Char → Str → Option (α × Nat)) (s : Str) : Option α :=
  (findAll m s).head?

/-- `re.sub` scan: on a match, emit the replacement the matcher built and
resume after the match; otherwise copy one character. -/
def subAllAux (m : Option Char → Str → Option (Str × Nat)) :
    Nat → Option Char → Str → Str
  | 0, _, rest => rest
  | _ + 1, _, [] => []
  | fuel + 1, prev, c :: cs =>
    match m prev (c :: cs) with
    | some (rep, n) =>
        rep ++ subAllAux m fuel (((c :: cs).take n).getLast?) ((c :: cs).drop n)
    | none => c :: subAllAux m fuel (some c) cs

def subAll (m : Option Char → Str → Option (Str × Nat)) (s : Str) : Str :=
  subAllAux m (s.length + 1) none s

/-- Matcher for `\b(w1|w2|…)\b` with `re.IGNORECASE` (alternatives tried in
order; every alternative starts and ends with a word character, which is
true of all keyword alternations in the source). -/
def matchWordAlt (words : List Str) (prev : Option Char) (s : Str) : Option (Str × Nat) :=
  if boundaryL prev then
    words.findSome? fun w =>
      if startsWithCI s w && boundaryR (s.drop w.length) then some (w, w.length) else none
  else none

/-- `re.search` for a word/phrase alternation pattern. -/
def searchWordAlt (words : List Str) (s : Str) : Bool :=
  (findFirst (matchWordAlt words) s).isSome

/-!
## RE_RAM  —  `\b(\d+)\s*(?:gb|gigas?)\b(?!\s*(?:[\.,\-\/]\s*)?(?:de\s+)?(?:ssd|hdd|emmc|rom|almacenamiento|storage|disco|nvme|flash|interno|interna))`
-/

def storageWords : List Str :=
  [str "ssd", str "hdd", str "emmc", str "rom", str "almacenamiento",
   str "storage", str "disco", str "nvme", str "flash", str "interno", str "interna"]

/-- The negative lookahead body of `RE_RAM`: optional punctuation, optional
`de`, then a storage word; true iff some choice of the optional parts lets
a storage word match (all the backtracking paths of the lookahead). -/
def ramLookaheadBad (s : Str) : Bool :=
  let s0 := s.dropWhile isSpaceChar
  let afterPunct : List Str :=
    match s0 with
    | c :: cs => if c = '.' || c = ',' || c = '-' || c = '/' then [cs.dropWhile isSpaceChar] else []
    | [] => []
  (s0 :: afterPunct).any fun a =>
    let afterDe : List Str :=
      if startsWithCI a (str "de") && ((a.drop 2).takeWhile isSpaceChar ≠ []) then
        [(a.drop 2).dropWhile isSpaceChar]
      else []
    (a :: afterDe).any fun b => storageWords.any fun w => startsWithCI b w

def digitsToNat (ds : Str) : Nat :=
  ds.foldl (fun a c => a * 10 + (c.toNat - 48)) 0

def matchRam (prev : Option Char) (s : Str) : Option (Nat × Nat) :=
  if !boundaryL prev then none
  else
    let ds := s.takeWhile Char.isDigit
    if ds = [] then none
    else
      let r1 := s.drop ds.length
      let ws := r1.takeWhile isSpaceChar
      let r2 := r1.drop ws.length
      -- unit alternatives in regex order gb, gigas, giga (`gigas?` greedy)
      let units := [str "gb", str "gigas", str "giga"]
      units.findSome? fun u =>
        if startsWithCI r2 u && boundaryR (r2.drop u.length) &&
            !ramLookaheadBad (r2.drop u.length) then
          some (digitsToNat ds, ds.length + ws.length + u.length)
        else none

def ramFindall (s : Str) : List Nat := findAll matchRam s

/-!
## Condition / category keyword patterns (regex_analyzer.py lines 84-144)
-/

def conditionNewWords : List Str :=
  [str "nuevo", str "precintado", str "sin abrir", str "estrenar", str "sealed",
   str "new", str "garantia", str "factura"]

def conditionLikeNewWords : List Str :=
  [str "como nuevo", str "impecable", str "perfecto estado", str "reacondicionado",
   str "refurbished", str "poquisimo uso", str "sin uso"]

def conditionBrokenWords : List Str :=
  [str "roto", str "averiado", str "fallo", str "bloqueado", str "icloud", str "bios",
   str "pantalla rota", str "no enciende", str "no funciona", str "para piezas",
   str "despiece", str "repuesto", str "tarada", str "golpe", str "mojado",
   str "water", str "broken", str "parts", str "read", str "leer", str "reparar"]

def subCategoryRules : List (Str × List Str) :=
  [(str "APPLE", [str "macbook", str "mac", str "apple", str "macos"]),
   (str "SURFACE", [str "surface", str "microsoft surface"]),
   (str "WORKSTATION", [str "thinkpad", str "latitude", str "precision", str "zbook",
      str "quadro", str "elitebook", str "probook"]),
   (str "PREMIUM_ULTRABOOK", [str "xps", str "spectre", str "zenbook", str "gram",
      str "yoga", str "matebook"]),
   (str "GAMING", [str "gaming", str "gamer", str "rog", str "tuf", str "alienware",
      str "msi", str "omen", str "predator", str "legion", str "nitro", str "victus",
      str "loq", str "blade", str "razer"]),
   (str "CHROMEBOOK", [str "chromebook", str "chrome"])]

/-- `is_match`: whole-word search of any keyword. -/
def isMatchKw (textLower : Str) (kws : List Str) : Bool := searchWordAlt kws textLower

/-!
## smart_truncate_spam (regex_analyzer.py lines 248-289)
-/

def spamIndicators : List Str :=
  [str "rtx", str "gtx", str "amd", str "intel", str "ryzen", str "i7", str "i5",
   str "ps5", str "xbox", str "iphone", str "samsung", str "asus", str "msi"]

/-- Number of spam indicators occurring (as substrings) in one line. -/
def lineHits (line : Str) : Nat :=
  (spamIndicators.filter fun ind => containsSub (toLowerStr line) ind).length

def truncateLines : List Str → List Str
  | [] => []
  | l :: ls => if 3 < lineHits l then [] else l :: truncateLines ls

def smartTruncateSpam (text : Str) : Str :=
  joinLines (truncateLines (splitLines text))

/-!
## sanitize_hardware_ambiguities (regex_analyzer.py lines 292-313)
-/

/-- Matcher for `(?i)\b(ssd|disco|disk|drive|almacenamiento)\s+m\.?2\b`,
replacement `\1_NVME`. -/
def matchSanitize1 (prev : Option Char) (s : Str) : Option (Str × Nat) :=
  if !boundaryL prev then none
  else
    [str "ssd", str "disco", str "disk", str "drive", str "almacenamiento"].findSome?
      fun w =>
        if startsWithCI s w then
          let r1 := s.drop w.length
          let ws := r1.takeWhile isSpaceChar
          if ws = [] then none
          else
            let r2 := r1.drop ws.length
            match r2 with
            | c :: rest =>
              if lowerChar c = 'm' then
                let (dot, r3) := match rest with
                  | '.' :: r3 => (1, r3)
                  | _ => (0, rest)
                match r3 with
                | '2' :: r4 =>
                  if boundaryR r4 then
                    some (s.take w.length ++ str "_NVME",
                          w.length + ws.length + 1 + dot + 1)
                  else none
                | _ => none
              else none
            | [] => none
        else none

/-- Matcher for `(?i)\bm\.?2\s+(ssd|nvme|sata)\b`, replacement `NVME_\1`. -/
def matchSanitize2 (prev : Option Char) (s : Str) : Option (Str × Nat) :=
  if !boundaryL prev then none
  else
    match s with
    | c :: rest =>
      if lowerChar c = 'm' then
        let (dot, r1) := match rest with
          | '.' :: r1 => (1, r1)
          | _ => (0, rest)
        match r1 with
        | '2' :: r2 =>
          let ws := r2.takeWhile isSpaceChar
          if ws = [] then none
          else
            let r3 := r2.drop ws.length
            [str "ssd", str "nvme", str "sata"].findSome? fun w =>
              if startsWithCI r3 w && boundaryR (r3.drop w.length) then
                some (str "NVME_" ++ r3.take w.length,
                      1 + dot + 1 + ws.length + w.length)
              else none
        | _ => none
      else none
    | [] => none

def sanitizeHardwareAmbiguities (text : Str) : Str :=
  subAll matchSanitize2 (subAll matchSanitize1 text)

/-!
## Hardware extraction (regex_analyzer.py lines 114-129, 422-663)
-/

def upperStr (s : Str) : Str := s.map Char.toUpper

def stripStr (s : Str) : Str :=
  ((s.dropWhile isSpaceChar).reverse.dropWhile isSpaceChar).reverse

/-- Python string `<` (lexicographic on code points). -/
def strLtB : Str → Str → Bool
  | [], [] => false
  | [], _ :: _ => true
  | _ :: _, [] => false
  | a :: as_, b :: bs =>
    if a.toNat < b.toNat then true
    else if a.toNat = b.toNat then strLtB as_ bs
    else false

/-- `sorted(list(models), reverse=True)[0]`: the lexicographically greatest
element. -/
def maxStr (l : List Str) : Option Str :=
  match l with
  | [] => none
  | s :: rest => some (rest.foldl (fun a b => if strLtB a b then b else a) s)

/-- `set.add` (kept as a duplicate-free list). -/
def insertModel (l : List Str) (m : Str) : List Str :=
  if m ∈ l then l else l ++ [m]

def isValidRam (v : Nat) : Bool :=
  decide (v ∈ ([4, 6, 8, 12, 16, 20, 24, 32, 40, 48, 64] : List Nat))

def fmtRam (v : Nat) : Str := str (toString v) ++ str "GB"

/-- The selection loop of `extract_ram` over the `RE_RAM` matches. -/
def ramSelect (maxGb : Nat) : List Nat → Nat → Option Str → Option Str
  | [], _, ramStr => ramStr
  | v :: vs, bestRam, ramStr =>
    if isValidRam v && v ≤ maxGb && bestRam < v then
      ramSelect maxGb vs v (some (fmtRam v))
    else
      ramSelect maxGb vs bestRam ramStr

/-- `extract_ram` (lines 535-563): keep the largest whitelist value within
`maxGb` among the `RE_RAM` matches. -/
def extractRam (textLower : Str) (maxGb : Nat) : Option Str :=
  ramSelect maxGb (ramFindall textLower) 0 none

def cpuBrandWords : List Str :=
  [str "intel", str "amd", str "apple", str "qualcomm", str "microsoft"]

def gpuBrandWords : List Str :=
  [str "nvidia", str "amd", str "radeon", str "geforce"]

/-- One `RE_CPU_MODELS` capture, by pattern shape:
* `coreI hasCore d` — `\b(core\s*-?)?(i[3579])\b` (tuple `(g1, i<d>)`);
* `ryzen d` — `\b(ryzen)\s*-?([3579])\b`;
* `mSeries d v` — `\b(m[123])\s*(pro|max|ultra)?\b`;
* `lowEnd w` — `\b(celeron|pentium|atom|xeon)\b`;
* `arm w` — `\b(snapdragon|sq[123])\b`. -/
inductive CpuCapture : Type
  | coreI (hasCore : Bool) (d : Char)
  | ryzen (d : Char)
  | mSeries (d : Char) (variant : Option Str)
  | lowEnd (w : Str)
  | arm (w : Str)
deriving DecidableEq

def isOdd3579 (d : Char) : Bool := d = '3' || d = '5' || d = '7' || d = '9'

def matchCoreI (prev : Option Char) (s : Str) : Option (CpuCapture × Nat) :=
  if !boundaryL prev then none
  else
    let without : Option (CpuCapture × Nat) :=
      match s with
      | c :: d :: rest =>
        if lowerChar c = 'i' && isOdd3579 d && boundaryR rest then
          some (.coreI false d, 2)
        else none
      | _ => none
    -- the optional group `(core\s*-?)?` is greedy: the `core` path is tried first
    if startsWithCI s (str "core") then
      let r1 := s.drop 4
      let ws := r1.takeWhile isSpaceChar
      let r2 := r1.drop ws.length
      let (dash, r3) := match r2 with
        | '-' :: t => (1, t)
        | _ => (0, r2)
      match r3 with
      | c :: d :: rest =>
        if lowerChar c = 'i' && isOdd3579 d && boundaryR rest then
          some (.coreI true d, 4 + ws.length + dash + 2)
        else without
      | _ => without
    else without

def matchRyzen (prev : Option Char) (s : Str) : Option (CpuCapture × Nat) :=
  if !boundaryL prev then none
  else if startsWithCI s (str "ryzen") then
    let r1 := s.drop 5
    let ws := r1.takeWhile isSpaceChar
    let r2 := r1.drop ws.length
    let (dash, r3) := match r2 with
      | '-' :: t => (1, t)
      | _ => (0, r2)
    match r3 with
    | d :: rest =>
      if isOdd3579 d && boundaryR rest then
        some (.ryzen d, 5 + ws.length + dash + 1)
      else none
    | [] => none
  else none

def cpuVariantWords : List Str := [str "pro", str "max", str "ultra"]

def matchMSeries (prev : Option Char) (s : Str) : Option (CpuCapture × Nat) :=
  if !boundaryL prev then none
  else
    match s with
    | c :: d :: rest =>
      if lowerChar c = 'm' && (d = '1' || d = '2' || d = '3') then
        let ws := rest.takeWhile isSpaceChar
        let r2 := rest.drop ws.length
        let withVariant : Option (CpuCapture × Nat) :=
          cpuVariantWords.findSome? fun v =>
            if startsWithCI r2 v && boundaryR (r2.drop v.length) then
              some (.mSeries d (some v), 2 + ws.length + v.length)
            else none
        match withVariant with
        | some r => some r
        | none =>
          -- empty variant: `\s*` backtracks until `\b` holds
          if ws.length ≠ 0 then
            match r2 with
            | c2 :: _ => if isWordChar c2 then some (.mSeries d none, 2 + ws.length)
                         else some (.mSeries d none, 2)
            | [] => some (.mSeries d none, 2)
          else if boundaryR rest then some (.mSeries d none, 2)
          else none
      else none
    | _ => none

def lowEndCpuWords : List Str := [str "celeron", str "pentium", str "atom", str "xeon"]

def armCpuWords : List Str := [str "snapdragon", str "sq1", str "sq2", str "sq3"]

/-- All `RE_CPU_MODELS` captures, pattern by pattern (the source loops over
the five compiled patterns in order). -/
def cpuModelCaptures (tl : Str) : List CpuCapture :=
  findAll matchCoreI tl ++ findAll matchRyzen tl ++ findAll matchMSeries tl ++
  (findAll (matchWordAlt lowEndCpuWords) tl).map CpuCapture.lowEnd ++
  (findAll (matchWordAlt armCpuWords) tl).map CpuCapture.arm

structure CpuAccum where
  models : List Str
  isApple : Bool
deriving DecidableEq

/-- The classification body of the capture loop (lines 607-629).  For each
capture the source builds `full_model` (joined groups with spaces/dashes
stripped) and dispatches: a capture with the `core` group joins to
`corei<d>`, which matches no branch and is dropped; `i<d>` alone is added
upper-cased; `ryzen<d>` keeps only its digits after `RYZEN`; `m<d>` sets
the Apple flag (with variant: `M<d> <VARIANT>`); the word patterns are
added upper-cased. -/
def applyCpuCapture (acc : CpuAccum) (cap : CpuCapture) : CpuAccum :=
  match cap with
  | .coreI true _ => acc
  | .coreI false d => { acc with models := insertModel acc.models ['I', d] }
  | .ryzen d => { acc with models := insertModel acc.models (str "RYZEN" ++ [d]) }
  | .mSeries d none => { models := insertModel acc.models ['M', d], isApple := true }
  | .mSeries d (some v) =>
      { models := insertModel acc.models ('M' :: d :: ' ' :: upperStr v), isApple := true }
  | .lowEnd w => { acc with models := insertModel acc.models (upperStr w) }
  | .arm w => { acc with models := insertModel acc.models (upperStr w) }

/-- `RE_GPU_MODEL = \b((?:rtx|gtx|rx)\s*-?\d{3,4}[a-z]*)\b` (IGNORECASE);
the capture is the matched text itself. -/
def matchGpuModel (prev : Option Char) (s : Str) : Option (Str × Nat) :=
  if !boundaryL prev then none
  else
    [str "rtx", str "gtx", str "rx"].findSome? fun pre =>
      if startsWithCI s pre then
        let r1 := s.drop pre.length
        let ws := r1.takeWhile isSpaceChar
        let r2 := r1.drop ws.length
        let (dash, r3) := match r2 with
          | '-' :: t => (1, t)
          | _ => (0, r2)
        let ds := r3.takeWhile Char.isDigit
        if ds.length = 3 || ds.length = 4 then
          let r4 := r3.drop ds.length
          let ls := r4.takeWhile Char.isAlpha
          if boundaryR (r4.drop ls.length) then
            let n := pre.length + ws.length + dash + ds.length + ls.length
            some (s.take n, n)
          else none
        else none
      else none

/-!
## Normalization and conflict resolution (regex_analyzer.py lines 445-663)
-/

structure SpecSet where
  cpu : Option Str
  ram : Option Str
  gpu : Option Str
deriving DecidableEq

/-- `clean_cpu_string` after the best model has been selected (its body
from `best = models[0].upper()` on). -/
def cleanCpuFromBest (brand : Option Str) (best0 : Str) (isApple : Bool) : Str :=
  let best := upperStr best0
  let brand1 :=
    if isApple || containsSub best (str "M1") || containsSub best (str "M2") ||
        containsSub best (str "M3") then some (str "APPLE")
    else if containsSub best (str "RYZEN") then some (str "AMD")
    else if (startsWith best (str "I") && 2 ≤ best.length &&
        (match best.drop 1 with
         | c :: _ => c.isDigit
         | [] => false)) then some (str "INTEL")
    else if [str "CELERON", str "PENTIUM", str "ATOM", str "XEON"].any
        (containsSub best ·) then some (str "INTEL")
    else if [str "SNAPDRAGON", str "SQ1", str "SQ2", str "SQ3"].any
        (containsSub best ·) then some (str "QUALCOMM")
    else brand
  let ryz := replaceAll best (str "RYZEN") []
  let best2 :=
    if containsSub best (str "RYZEN") && ryz ≠ [] &&
        (match ryz with
         | c :: _ => c.isDigit
         | [] => false) then
      replaceAll best (str "RYZEN") (str "RYZEN ")
    else best
  match brand1 with
  | some b =>
    if b = str "APPLE" && !startsWith best2 (str "APPLE") then str "APPLE " ++ best2
    else stripStr (b ++ [' '] ++ best2)
  | none => best2

def cleanCpuString (brand : Option Str) (models : List Str) (isApple : Bool) : Option Str :=
  (maxStr models).map fun best => cleanCpuFromBest brand best isApple

/-- `^([A-Z]+)(\d.*)$` split used by `clean_gpu_string`. -/
def splitLetterDigit (s : Str) : Option (Str × Str) :=
  let letters := s.takeWhile fun c => 'A' ≤ c && c ≤ 'Z'
  if letters ≠ [] then
    match s.drop letters.length with
    | c :: rest => if c.isDigit then some (letters, c :: rest) else none
    | [] => none
  else none

/-- `clean_gpu_string` after the best model has been selected. -/
def cleanGpuFromBest (brand : Option Str) (best0 : Str) : Str :=
  let best1 := upperStr best0
  let best :=
    if !containsSub best1 [' '] then
      match splitLetterDigit best1 with
      | some (a, b) => a ++ [' '] ++ b
      | none => best1
    else best1
  let brand1 :=
    if [str "RTX", str "GTX", str "MX", str "QUADRO"].any (containsSub best ·) then
      some (str "NVIDIA")
    else if [str "RX", str "RADEON", str "FIREPRO"].any (containsSub best ·) then
      some (str "AMD")
    else brand
  let final := stripStr (replaceAll best (brand1.getD []) [])
  match brand1 with
  | some b => stripStr (b ++ [' '] ++ final)
  | none => final

def cleanGpuString (brand : Option Str) (models : List Str) : Option Str :=
  (maxStr models).map (cleanGpuFromBest brand)

/-- `m[1:].isdigit()` (false on the empty string). -/
def tailIsDigits (m : Str) : Bool :=
  m.drop 1 ≠ [] && (m.drop 1).all Char.isDigit

/-- Line 645-648: a PC-class CPU signal is present. -/
def hasPcCpu (brand : Option Str) (models : List Str) : Bool :=
  brand = some (str "INTEL") || brand = some (str "AMD") ||
  models.any fun m => (startsWith m (str "I") && tailIsDigits m) || containsSub m (str "RYZEN")

/-- `re.match(r"^M[123].*$", m)` (also `re.match(r"^M[123]", m)`). -/
def mPurgeMatch (m : Str) : Bool :=
  match m with
  | 'M' :: d :: _ => d = '1' || d = '2' || d = '3'
  | _ => false

/-- Lines 644-660: Apple-vs-PC conflict resolution followed by
`clean_cpu_string`, producing the final `cpu` field. -/
def resolveCpuField (brand : Option Str) (models : List Str) (isApple : Bool) : Option Str :=
  let pc := hasPcCpu brand models
  let purged := pc && isApple
  let models1 := if purged then models.filter (fun m => !mPurgeMatch m) else models
  let apple1 := if purged then false else isApple
  let brand2 := if apple1 then some (str "APPLE") else brand
  let models2 := if apple1 then models1.filter mPurgeMatch else models1
  cleanCpuString brand2 models2 apple1

/-- `extract_specs_regex` (lines 566-663). -/
def extractSpecsRegex (text : Str) : SpecSet :=
  let tl := toLowerStr text
  let ram := extractRam tl 128
  let cpuBrand := (findFirst (matchWordAlt cpuBrandWords) tl).map upperStr
  let acc := (cpuModelCaptures tl).foldl applyCpuCapture ⟨[], false⟩
  let gpuBrand0 := (findFirst (matchWordAlt gpuBrandWords) tl).map upperStr
  let gpuBrand := gpuBrand0.map fun b => if b = str "GEFORCE" then str "NVIDIA" else b
  let gpuModels := (findAll matchGpuModel tl).foldl (fun l m => insertModel l (upperStr m)) []
  { cpu := resolveCpuField cpuBrand acc.models acc.isApple
    ram := ram
    gpu := cleanGpuString gpuBrand gpuModels }

/-!
## Category classification (regex_analyzer.py lines 670-786)
-/

/-- `classify_prime_category`.  Its only call site passes `final_specs`,
which carries only the keys `cpu`/`ram`/`gpu`, so
`specs.get("cpu_brand", "")` is always the empty string there and
`"apple" in ""` is false; the third rule therefore reduces to the
macbook/macos text checks. -/
def classifyPrimeCategory (textLower : Str) (specs : SpecSet) : Str :=
  let cpuStr := upperStr (specs.cpu.getD [])
  if containsSub cpuStr (str "APPLE M") then str "APPLE"
  else if (match specs.gpu with
           | some g => containsSub (toLowerStr g) (str "quadro")
           | none => false) then str "WORKSTATION"
  else if specs.gpu.isSome then str "GAMING"
  else if (containsSub textLower (str "macbook") || containsSub textLower (str "macos")) &&
      !containsSub cpuStr (str "AMD") then str "APPLE"
  else
    match subCategoryRules.findSome? (fun p =>
        if p.1 = str "GAMING" || p.1 = str "APPLE" then none
        else if isMatchKw textLower p.2 then some p.1 else none) with
    | some c => c
    | none => if containsSub textLower (str "gaming") then str "GAMING" else str "GENERICO"

def ramLimits : List (Str × Nat) :=
  [(str "CHROMEBOOK", 16), (str "SURFACE", 32), (str "PREMIUM_ULTRABOOK", 64),
   (str "GENERICO", 64)]

def lookupA {β : Type} (l : List (Str × β)) (k : Str) : Option β :=
  match l with
  | [] => none
  | p :: rest => if p.1 = k then some p.2 else lookupA rest k

/-- `apply_category_constraints` (lines 376-419). -/
def applyCategoryConstraints (specs : SpecSet) (category : Str) (fullTextOriginal : Str) : SpecSet :=
  let limit := (lookupA ramLimits category).getD 128
  let currentRam := match specs.ram with
    | some r => digitsToNat (r.filter Char.isDigit)
    | none => 0
  let specs1 :=
    if limit < currentRam then
      { specs with ram := extractRam (toLowerStr fullTextOriginal) limit }
    else specs
  if category = str "CHROMEBOOK" &&
      (match specs1.cpu with
       | some c => containsSub c (str "I7")
       | none => false) then
    if containsSub (toLowerStr fullTextOriginal) (str "celeron") then
      { specs1 with cpu := some (str "INTEL CELERON") }
    else if containsSub (toLowerStr fullTextOriginal) (str "pentium") then
      { specs1 with cpu := some (str "INTEL PENTIUM") }
    else specs1
  else specs1

/-- `get_prioritized_specs_and_category` (lines 724-786): sanitize, extract
from title (preferred) and truncated description, title-level category
short-circuits, then the general classifier, constraints, and the
regex-only condition. -/
def getPrioritizedSpecsAndCategory (title description : Str) : SpecSet × Str × Str :=
  let titleClean := sanitizeHardwareAmbiguities title
  let descClean := sanitizeHardwareAmbiguities (smartTruncateSpam description)
  let fullText := toLowerStr (titleClean ++ [' '] ++ descClean)
  let specsTitle := extractSpecsRegex titleClean
  let specsDesc := extractSpecsRegex (descClean.take 400)
  let finalSpecs : SpecSet :=
    { cpu := match specsTitle.cpu with
        | some c => some c
        | none => specsDesc.cpu
      ram := match specsTitle.ram with
        | some r => some r
        | none => specsDesc.ram
      gpu := match specsTitle.gpu with
        | some g => some g
        | none => specsDesc.gpu }
  let tl := toLowerStr titleClean
  let cat :=
    if containsSub tl (str "chromebook") then str "CHROMEBOOK"
    else if [str "macbook", str "mac air", str "mac pro", str "imac"].any
        (containsSub tl ·) then str "APPLE"
    else if containsSub tl (str "surface") then str "SURFACE"
    else classifyPrimeCategory fullText finalSpecs
  let finalSpecs2 := applyCategoryConstraints finalSpecs cat fullText
  let cond :=
    if searchWordAlt conditionBrokenWords fullText then str "BROKEN"
    else if searchWordAlt conditionNewWords fullText then str "NEW"
    else if searchWordAlt conditionLikeNewWords fullText then str "LIKE_NEW"
    else str "USED"
  (finalSpecs2, cat, cond)

/-!
## Listings, prices and condition (regex_analyzer.py lines 151-171, 320-369)
-/

/-- A JSON scalar as seen by `float(...)`: a value it converts to a number,
or one on which it raises (non-numeric string, null, nested object…). -/
inductive PriceVal : Type
  | num (q : ℚ)
  | bad
deriving DecidableEq

/-- The `price` field of a listing: absent, a scalar, or an object whose
`amount` field is read. -/
inductive PriceJson : Type
  | missing
  | scalar (v : PriceVal)
  | obj (amount : Option PriceVal)
deriving DecidableEq

/-- `clean_price` (lines 151-171): normalize to a number, 0.0 whenever the
field is missing or `float(...)` raises — the call never propagates an
exception. -/
def cleanPrice : PriceJson → ℚ
  | .missing => 0
  | .scalar (.num q) => q
  | .scalar .bad => 0
  | .obj none => 0
  | .obj (some (.num q)) => q
  | .obj (some .bad) => 0

structure Item where
  title : Str
  description : Str
  price : PriceJson
  apiCondition : Option Str
  refurbished : Bool
deriving DecidableEq

/-- The structured-field mapping inside `detect_condition_from_data`
(any other non-empty value, e.g. `good`/`fair`, maps to USED). -/
def mapApiCondValue (s : Str) : Str :=
  if s = str "new" then str "NEW"
  else if s = str "as_good_as_new" then str "LIKE_NEW"
  else if s = str "has_given_it_all" then str "BROKEN"
  else str "USED"

/-- `detect_condition_from_data` (lines 320-369): structured API condition,
then the refurbished flag, then the BROKEN → NEW → LIKE_NEW regex
fallback, default USED. -/
def detectConditionFromData (it : Item) (fullTextLower : Str) : Str :=
  let fallback :=
    if it.refurbished then str "LIKE_NEW"
    else if searchWordAlt conditionBrokenWords fullTextLower then str "BROKEN"
    else if searchWordAlt conditionNewWords fullTextLower then str "NEW"
    else if searchWordAlt conditionLikeNewWords fullTextLower then str "LIKE_NEW"
    else str "USED"
  match it.apiCondition with
  | some s => if s = [] then fallback else mapApiCondValue s
  | none => fallback

/-!
## Market segmentation (regex_analyzer.py lines 793-842)
-/

def laptopWords : List Str := [str "portatil", str "laptop", str "macbook"]

def accessoryWords : List Str := [str "funda", str "caja", str "dock", str "raton"]

/-- `determine_market_segment` (the `specs` parameter is unused in the
source as well). -/
def determineMarketSegment (titleLower : Str) (price : ℚ) (condition : Str)
    (_specs : SpecSet) : Str :=
  if price < 5 then str "UNCERTAIN"
  else if 10000 < price then str "JUNK"
  else if condition = str "BROKEN" then str "BROKEN"
  else
    let isLaptop := laptopWords.any (containsSub titleLower ·)
    let isAccessory := accessoryWords.any (containsSub titleLower ·)
    if isAccessory && price < 100 then str "ACCESSORY"
    else if isAccessory && !isLaptop then str "ACCESSORY"
    else str "PRIME"

/-!
## Anomaly scorer (poller.py lines 69-74, 305-327, 333-495, 662-705)

The market-statistics table is the JSON document loaded at startup; a
node models one `CATEGORY → CONDITION` entry.  A missing or empty (falsy)
dictionary is modelled as `none`.  `round(x, 2)` on the reported z-score
and estimate is float display formatting and is not modelled (values stay
exact); the `:.2f` interpolation inside one factor string is likewise
dropped from the factor text.
-/

structure CompStat where
  mean : ℚ
  stdev : ℚ
deriving DecidableEq

structure StatsComponents where
  cpu : List (Str × CompStat)
  ram : List (Str × CompStat)
  gpu : List (Str × CompStat)
deriving DecidableEq

structure StatsNode where
  mean : ℚ
  stdev : Option ℚ
  components : Option StatsComponents
deriving DecidableEq

abbrev StatsTable := List (Str × List (Str × StatsNode))

/-- `get_stats_for_component` (lines 305-327): `None` for a missing name or
node, or when any key on the path is absent (the `KeyError` catch). -/
def getStatsForComponent (node : Option StatsNode) (ctype : Str) (name : Option Str) :
    Option CompStat :=
  match name, node with
  | some nm, some n =>
    match n.components with
    | some comps =>
      if ctype = str "cpu" then lookupA comps.cpu nm
      else if ctype = str "gpu" then lookupA comps.gpu nm
      else if ctype = str "ram" then lookupA comps.ram nm
      else none
    | none => none
  | _, _ => none

def WEIGHTS : List (Str × ℚ) :=
  [(str "cpu", 1/2), (str "gpu", 3/10), (str "ram", 1/10), (str "category", 1/10)]

def weightOf (k : Str) : ℚ := (lookupA WEIGHTS k).getD 0

structure Signal where
  z : ℚ
  weight : ℚ
  ref : ℚ
  src : Str
deriving DecidableEq

/-- One component signal (lines 418-427): present iff a per-component stat
exists with positive stdev. -/
def compSignal (node : Option StatsNode) (ctype : Str) (name : Option Str) (price : ℚ) :
    List Signal :=
  match getStatsForComponent node ctype name with
  | some c =>
    if 0 < c.stdev then
      [⟨(price - c.mean) / c.stdev, weightOf ctype, c.mean, ctype ++ ':' :: name.getD []⟩]
    else []
  | none => []

/-- The category-baseline signal (lines 429-437): present iff the node's
`stdev` key exists and is positive (`stats_node.get("stdev", 0) > 0`). -/
def catSignal (node : Option StatsNode) (category : Str) (price : ℚ) : List Signal :=
  match node with
  | some n =>
    match n.stdev with
    | some sd =>
      if 0 < sd then [⟨(price - n.mean) / sd, weightOf (str "category"), n.mean, category⟩]
      else []
    | none => []
  | none => []

def riskSignals (node : Option StatsNode) (specs : SpecSet) (price : ℚ) (category : Str) :
    List Signal :=
  compSignal node (str "cpu") specs.cpu price ++ compSignal node (str "gpu") specs.gpu price ++
  compSignal node (str "ram") specs.ram price ++ catSignal node category price

def zwSum (l : List Signal) : ℚ := (l.map fun s => s.z * s.weight).sum

def wpSum (l : List Signal) : ℚ := (l.map fun s => s.ref * s.weight).sum

def wSum (l : List Signal) : ℚ := (l.map fun s => s.weight).sum

/-- `stats_node.get("stdev", 100)` at line 455 (`stats_node` may be the
empty dictionary, modelled `none`). -/
def fallbackStdevRef (node : Option StatsNode) : ℚ :=
  match node with
  | some n => n.stdev.getD 100
  | none => 100

/-- Lines 439-456: the weighted composite z and estimate, with the
NEW-on-fallback adjustment (+20 % estimate, z recomputed with the fallback
node's stdev). -/
def compositeZEst (signals : List Signal) (fallbackUsed : Bool) (condition : Str)
    (price : ℚ) (node : Option StatsNode) : ℚ × ℚ :=
  if signals = [] then (0, 0)
  else
    let tw := wSum signals
    if 0 < tw then
      let z0 := zwSum signals / tw
      let e0 := wpSum signals / tw
      if fallbackUsed && condition = str "NEW" then
        let e1 := e0 * (6/5)
        ((price - e1) / fallbackStdevRef node, e1)
      else (z0, e0)
    else (0, 0)

/-- Lines 374-391: the `CATEGORY → CONDITION` lookup with the NEW →
LIKE_NEW/USED and LIKE_NEW → USED condition fallback; the boolean is
`fallback_used` (set when the fallback path is taken, whether or not it
finds a node). -/
def statsLookup (stats : StatsTable) (category condition : Str) :
    Option StatsNode × Bool :=
  let catRoot := (lookupA stats category).getD []
  match lookupA catRoot condition with
  | some n => (some n, false)
  | none =>
    if condition = str "NEW" then
      (match lookupA catRoot (str "LIKE_NEW") with
       | some n => some n
       | none => lookupA catRoot (str "USED"), true)
    else if condition = str "LIKE_NEW" then (lookupA catRoot (str "USED"), true)
    else (none, false)

/-- The two z-threshold increments (lines 461-467): +30 below −1.5 and a
further +40 below −2.5. -/
def priceRiskPoints (z : ℚ) : ℤ :=
  (if z < -(3/2) then 30 else 0) + (if z < -(5/2) then 40 else 0)

/-- `(whatsapp|6\d{8})` search, no word boundaries (line 479). -/
def hasContactPat : Str → Bool
  | [] => false
  | c :: cs =>
    startsWithCI (c :: cs) (str "whatsapp") ||
    (c = '6' && (cs.take 8).length = 8 && (cs.take 8).all Char.isDigit) ||
    hasContactPat cs

structure MarketAnalysis where
  detected_category : Str
  detected_condition : Str
  specs_detected : SpecSet
  composite_z_score : ℚ
  estimated_market_value : ℚ
  components_used : List Str
deriving DecidableEq

structure RiskResult where
  risk_score : ℤ
  risk_factors : List Str
  market_analysis : MarketAnalysis
deriving DecidableEq

/-- `calculate_risk_base` (lines 333-495). -/
def calcRiskBase (stats : StatsTable) (it : Item) (forceCondition : Option Str) : RiskResult :=
  let desc := it.description
  let price := cleanPrice it.price
  let sc := getPrioritizedSpecsAndCategory it.title desc
  let specs := sc.1
  let category := sc.2.1
  let condition := forceCondition.getD sc.2.2
  let nf := statsLookup stats category condition
  if price < 5 then
    { risk_score := 0
      risk_factors := [str "Symbolic Price"]
      market_analysis :=
        { detected_category := str "UNCERTAIN_PRICE"
          detected_condition := condition
          specs_detected := specs
          composite_z_score := 0
          estimated_market_value := 0
          components_used := [] } }
  else
    let signals := riskSignals nf.1 specs price category
    let ze := compositeZEst signals nf.2 condition price nf.1
    let shortDesc := desc.length < 30 && decide (200 < price)
    let contact := hasContactPat desc
    let score : ℤ := priceRiskPoints ze.1 + (if shortDesc then 15 else 0) +
      (if contact then 30 else 0)
    let factors :=
      (if ze.1 < -(3/2) then [str "Statistically Cheap [" ++ condition ++ str "]"] else []) ++
      (if ze.1 < -(5/2) then [str "EXTREME Price Anomaly"] else []) ++
      (if shortDesc then [str "Short Desc"] else []) ++
      (if contact then [str "External Contact"] else [])
    { risk_score := min score 100
      risk_factors := factors
      market_analysis :=
        { detected_category := category
          detected_condition := condition
          specs_detected := specs
          composite_z_score := ze.1
          estimated_market_value := ze.2
          components_used := signals.map fun s => s.src } }

/-- The reputation adjustments of `run_smart_poller` (poller.py lines
669-702), applied in source order to the base score: trusted seller −30,
top seller −50, account younger than 3 days +30, dormant account (older
than a year, zero sales) +20, any scam report forces 100. -/
def applyReputation (score : ℤ) (sales : ℕ) (stars : ℚ) (isTop : Bool)
    (regDays : Option ℤ) (scamReports : ℕ) : ℤ :=
  let s1 := if 5 < sales ∧ (9/2 : ℚ) ≤ stars then score - 30 else score
  let s2 := if isTop then s1 - 50 else s1
  let s3 := match regDays with
    | some d =>
      let a := if d < 3 then s2 + 30 else s2
      if 365 < d ∧ sales = 0 then a + 20 else a
    | none => s2
  if 0 < scamReports then 100 else s3

/-- Line 704-705: `max(0, min(100, risk_score))`, applied to every listing
whether or not the optional reputation pass ran. -/
def finalRiskScore (base : ℤ) (enriched : Bool) (sales : ℕ) (stars : ℚ) (isTop : Bool)
    (regDays : Option ℤ) (scamReports : ℕ) : ℤ :=
  max 0 (min 100 (if enriched then applyReputation base sales stars isTop regDays scamReports
                  else base))

/-!
## Statistics aggregator (regex_analyzer.py lines 849-1022)

`market_data` is the collection structure filled by the item loop
(`PRIME` nested dictionaries keyed category → condition, `SECONDARY` price
lists under its only two keys BROKEN/ACCESSORY, and the UNCERTAIN price
pool); `finalStatsOf` is the aggregation stage writing `market_stats.json`.
The recorded standard deviation `round(statistics.stdev(prices), 2)` is
represented by the exact variance `stdevSq` it is the square root of
(`statistics.stdev` is the n−1 sample deviation); means and medians are
exact rationals.
-/

structure GroupData where
  prices : List ℚ
  cpu : List (Str × List ℚ)
  ram : List (Str × List ℚ)
  gpu : List (Str × List ℚ)
deriving DecidableEq

def emptyGroup : GroupData := ⟨[], [], [], []⟩

structure MarketData where
  prime : List (Str × List (Str × GroupData))
  secondaryBroken : List ℚ
  secondaryAccessory : List ℚ
  uncertain : List ℚ
deriving DecidableEq

def emptyMarketData : MarketData := ⟨[], [], [], []⟩

/-- Dictionary update with `defaultdict` semantics: modify the entry in
place, creating it (at the end, as Python dict insertion does) from the
default when absent. -/
def updateAssoc {β : Type} (l : List (Str × β)) (k : Str) (dflt : β) (f : β → β) :
    List (Str × β) :=
  match l with
  | [] => [(k, f dflt)]
  | p :: rest => if p.1 = k then (k, f p.2) :: rest else p :: updateAssoc rest k dflt f

/-- One iteration of the item loop (lines 920-961): analyze, detect
condition, segment, and route the price. -/
def processItem (md : MarketData) (it : Item) : MarketData :=
  let price := cleanPrice it.price
  let sc := getPrioritizedSpecsAndCategory it.title it.description
  let specs := sc.1
  let cat := sc.2.1
  let fullText := toLowerStr (it.title ++ [' '] ++ it.description)
  let condition := detectConditionFromData it fullText
  let segment := determineMarketSegment (toLowerStr it.title) price condition specs
  if segment = str "JUNK" then md
  else if segment = str "UNCERTAIN" ∨ (specs.cpu = none ∧ specs.ram = none) then
    { md with uncertain := md.uncertain ++ [price] }
  else if segment = str "BROKEN" then
    { md with secondaryBroken := md.secondaryBroken ++ [price] }
  else if segment = str "ACCESSORY" then
    { md with secondaryAccessory := md.secondaryAccessory ++ [price] }
  else
    { md with prime := updateAssoc md.prime cat [] fun conds =>
        updateAssoc conds condition emptyGroup fun g =>
          { prices := g.prices ++ [price]
            cpu := match specs.cpu with
              | some c => updateAssoc g.cpu c [] (· ++ [price])
              | none => g.cpu
            ram := match specs.ram with
              | some r => updateAssoc g.ram r [] (· ++ [price])
              | none => g.ram
            gpu := match specs.gpu with
              | some gp => updateAssoc g.gpu gp [] (· ++ [price])
              | none => g.gpu } }

def processItems (items : List Item) : MarketData :=
  items.foldl processItem emptyMarketData

def meanQ (l : List ℚ) : ℚ := l.sum / l.length

def insertSorted (x : ℚ) : List ℚ → List ℚ
  | [] => [x]
  | y :: ys => if x ≤ y then x :: y :: ys else y :: insertSorted x ys

def sortQ (l : List ℚ) : List ℚ := l.foldr insertSorted []

/-- `statistics.median`: middle element, or the average of the two middle
elements for an even count. -/
def medianQ (l : List ℚ) : ℚ :=
  let s := sortQ l
  let n := l.length
  if n % 2 = 1 then s.getD (n / 2) 0
  else (s.getD (n / 2 - 1) 0 + s.getD (n / 2) 0) / 2

/-- The variance whose square root `statistics.stdev` returns (sample
variance, denominator n−1). -/
def sampleVarQ (l : List ℚ) : ℚ :=
  if l.length ≤ 1 then 0
  else (l.map fun x => (x - meanQ l) ^ 2).sum / ((l.length : ℚ) - 1)

/-- The population variance (denominator n), the square of
`statistics.pstdev` — used only to compare against what the code records. -/
def populationVarQ (l : List ℚ) : ℚ :=
  if l.length = 0 then 0
  else (l.map fun x => (x - meanQ l) ^ 2).sum / (l.length : ℚ)

structure CompEntry where
  mean : ℚ
  median : ℚ
  stdevSq : ℚ
  count : ℕ
deriving DecidableEq

structure GroupStats where
  mean : ℚ
  median : ℚ
  stdevSq : ℚ
  count : ℕ
  compCpu : List (Str × CompEntry)
  compRam : List (Str × CompEntry)
  compGpu : List (Str × CompEntry)
deriving DecidableEq

structure FlatStats where
  mean : ℚ
  count : ℕ
deriving DecidableEq

/-- `final_stats`: the nested per-category tables plus the flat
BROKEN/ACCESSORY/UNCERTAIN entries (disjoint keys of the same JSON
object in the source). -/
structure FinalStats where
  prime : List (Str × List (Str × GroupStats))
  broken : Option FlatStats
  accessory : Option FlatStats
  uncertain : Option FlatStats
deriving DecidableEq

/-- Per-component aggregation (lines 989-998): an entry is kept only when
its price list has at least 2 samples. -/
def mkCompEntries (l : List (Str × List ℚ)) : List (Str × CompEntry) :=
  l.filterMap fun p =>
    if 2 ≤ p.2.length then
      some (p.1, ⟨meanQ p.2, medianQ p.2, sampleVarQ p.2, p.2.length⟩)
    else none

def mkGroupStats (g : GroupData) : GroupStats :=
  ⟨meanQ g.prices, medianQ g.prices, sampleVarQ g.prices, g.prices.length,
   mkCompEntries g.cpu, mkCompEntries g.ram, mkCompEntries g.gpu⟩

/-- The aggregation stage (lines 968-1016). -/
def finalStatsOf (md : MarketData) : FinalStats :=
  { prime := md.prime.map fun p =>
      (p.1, p.2.filterMap fun q =>
        if q.2.prices.length < 2 then none else some (q.1, mkGroupStats q.2))
    broken :=
      if 3 < md.secondaryBroken.length then
        some ⟨meanQ md.secondaryBroken, md.secondaryBroken.length⟩
      else none
    accessory :=
      if 3 < md.secondaryAccessory.length then
        some ⟨meanQ md.secondaryAccessory, md.secondaryAccessory.length⟩
      else none
    uncertain :=
      if 3 < md.uncertain.length then
        some ⟨meanQ md.uncertain, md.uncertain.length⟩
      else none }

/-!
## Shared lemmas about the scorer
-/

theorem priceRiskPoints_nonneg (z : ℚ) : 0 ≤ priceRiskPoints z := by
  unfold priceRiskPoints
  split_ifs <;> omega

/-- The symbolic-price branch of `calculate_risk_base`. -/
theorem calcRiskBase_lt5 (stats : StatsTable) (it : Item) (fc : Option Str)
    (h : cleanPrice it.price < 5) :
    calcRiskBase stats it fc =
      { risk_score := 0
        risk_factors := [str "Symbolic Price"]
        market_analysis :=
          { detected_category := str "UNCERTAIN_PRICE"
            detected_condition := fc.getD (getPrioritizedSpecsAndCategory it.title it.description).2.2
            specs_detected := (getPrioritizedSpecsAndCategory it.title it.description).1
            composite_z_score := 0
            estimated_market_value := 0
            components_used := [] } } := by
  unfold calcRiskBase
  simp only [if_pos h]

/-- The score produced past the symbolic-price branch. -/
theorem calcRiskBase_score_ge5 (stats : StatsTable) (it : Item) (fc : Option Str)
    (h : ¬ cleanPrice it.price < 5) :
    (calcRiskBase stats it fc).risk_score =
      min (priceRiskPoints (calcRiskBase stats it fc).market_analysis.composite_z_score +
        (if it.description.length < 30 && decide (200 < cleanPrice it.price) then 15 else 0) +
        (if hasContactPat it.description then 30 else 0)) 100 := by
  unfold calcRiskBase
  simp only [if_neg h]

/-- C1: every risk score is an integer in [0,100]: `calculate_risk_base`
returns `min(accumulated, 100)` with a never-negative accumulated score,
and the final score after the optional reputation pass (−30/−50, +30/+20,
or forced 100) is clamped back into [0,100] for every listing. -/
theorem claim1_risk_score_bounds (stats : StatsTable) (it : Item) (fc : Option Str)
    (enriched : Bool) (sales : ℕ) (stars : ℚ) (isTop : Bool) (regDays : Option ℤ)
    (scamReports : ℕ) :
    (∃ acc : ℤ, 0 ≤ acc ∧ (calcRiskBase stats it fc).risk_score = min acc 100) ∧
    0 ≤ (calcRiskBase stats it fc).risk_score ∧
    (calcRiskBase stats it fc).risk_score ≤ 100 ∧
    0 ≤ finalRiskScore (calcRiskBase stats it fc).risk_score enriched sales stars isTop
        regDays scamReports ∧
    finalRiskScore (calcRiskBase stats it fc).risk_score enriched sales stars isTop
        regDays scamReports ≤ 100 := by
  have hacc : ∃ acc : ℤ, 0 ≤ acc ∧ (calcRiskBase stats it fc).risk_score = min acc 100 := by
    by_cases h : cleanPrice it.price < 5
    · rw [calcRiskBase_lt5 stats it fc h]
      exact ⟨0, le_refl 0, by norm_num⟩
    · rw [calcRiskBase_score_ge5 stats it fc h]
      have hz := priceRiskPoints_nonneg
        (calcRiskBase stats it fc).market_analysis.composite_z_score
      refine ⟨_, ?_, rfl⟩
      split_ifs <;> omega
  have hbase : 0 ≤ (calcRiskBase stats it fc).risk_score ∧
      (calcRiskBase stats it fc).risk_score ≤ 100 := by
    rcases hacc with ⟨acc, hnn, heq⟩
    rw [heq]
    omega
  refine ⟨hacc, hbase.1, hbase.2, ?_, ?_⟩
  · exact le_max_left 0 _
  · unfold finalRiskScore
    have : min 100 (if enriched then
        applyReputation (calcRiskBase stats it fc).risk_score sales stars isTop regDays
          scamReports
        else (calcRiskBase stats it fc).risk_score) ≤ 100 := min_le_left _ _
    omega

/-- C2: a listing whose normalized price is below 5 (including a missing or
non-numeric price, which `clean_price` turns into 0.0) gets the zero-risk
result: score 0, factors `["Symbolic Price"]`, z-score 0, estimate 0 and no
components; the (total) call never penalizes such listings. -/
theorem claim2_symbolic_price (stats : StatsTable) (it : Item) (fc : Option Str)
    (h : cleanPrice it.price < 5) :
    (calcRiskBase stats it fc).risk_score = 0 ∧
    (calcRiskBase stats it fc).risk_factors = [str "Symbolic Price"] ∧
    (calcRiskBase stats it fc).market_analysis.composite_z_score = 0 ∧
    (calcRiskBase stats it fc).market_analysis.estimated_market_value = 0 ∧
    (calcRiskBase stats it fc).market_analysis.components_used = [] ∧
    (calcRiskBase stats it fc).market_analysis.detected_category = str "UNCERTAIN_PRICE" ∧
    cleanPrice .missing = 0 ∧ cleanPrice (.scalar .bad) = 0 ∧
    cleanPrice (.obj (some .bad)) = 0 := by
  rw [calcRiskBase_lt5 stats it fc h]
  refine ⟨rfl, rfl, rfl, rfl, rfl, rfl, rfl, rfl, rfl⟩

theorem claim2_symbolic_price_witness :
    cleanPrice (PriceJson.scalar .bad) < 5 ∧
    (calcRiskBase [] ⟨str "movil", str "", PriceJson.scalar .bad, none, false⟩ none).risk_score
      = 0 ∧
    (calcRiskBase [] ⟨str "movil", str "", PriceJson.scalar .bad, none, false⟩
      none).risk_factors = [str "Symbolic Price"] := by
  have h : cleanPrice (PriceJson.scalar .bad) < 5 := by norm_num [cleanPrice]
  have hc := claim2_symbolic_price []
    ⟨str "movil", str "", PriceJson.scalar .bad, none, false⟩ none h
  exact ⟨h, hc.1, hc.2.1⟩

/-- The composite z-score as it would be without the fallback-inflation
adjustment (the spec's comparison computation: lines 443-450 of poller.py
with the lines 453-456 adjustment skipped). -/
def compositeZNoInflation (signals : List Signal) : ℚ :=
  if signals = [] then 0
  else if 0 < wSum signals then zwSum signals / wSum signals else 0

/-- The C3 scenario: no NEW node for the category, a USED node with
mean 500 and stdev 100. -/
def statsC3 : StatsTable := [(str "GENERICO", [(str "USED", ⟨500, some 100, none⟩)])]

/-- A NEW listing priced at 500 in that category. -/
def itemC3 : Item := ⟨str "portatil", str "", .scalar (.num 500), none, false⟩

/-- The `market_analysis` produced past the symbolic-price branch. -/
theorem calcRiskBase_ma_ge5 (stats : StatsTable) (it : Item) (fc : Option Str)
    (h : ¬ cleanPrice it.price < 5) :
    (calcRiskBase stats it fc).market_analysis =
      { detected_category := (getPrioritizedSpecsAndCategory it.title it.description).2.1
        detected_condition :=
          fc.getD (getPrioritizedSpecsAndCategory it.title it.description).2.2
        specs_detected := (getPrioritizedSpecsAndCategory it.title it.description).1
        composite_z_score :=
          (compositeZEst
            (riskSignals
              (statsLookup stats (getPrioritizedSpecsAndCategory it.title it.description).2.1
                (fc.getD (getPrioritizedSpecsAndCategory it.title it.description).2.2)).1
              (getPrioritizedSpecsAndCategory it.title it.description).1
              (cleanPrice it.price)
              (getPrioritizedSpecsAndCategory it.title it.description).2.1)
            (statsLookup stats (getPrioritizedSpecsAndCategory it.title it.description).2.1
              (fc.getD (getPrioritizedSpecsAndCategory it.title it.description).2.2)).2
            (fc.getD (getPrioritizedSpecsAndCategory it.title it.description).2.2)
            (cleanPrice it.price)
            (statsLookup stats (getPrioritizedSpecsAndCategory it.title it.description).2.1
              (fc.getD (getPrioritizedSpecsAndCategory it.title it.description).2.2)).1).1
        estimated_market_value :=
          (compositeZEst
            (riskSignals
              (statsLookup stats (getPrioritizedSpecsAndCategory it.title it.description).2.1
                (fc.getD (getPrioritizedSpecsAndCategory it.title it.description).2.2)).1
              (getPrioritizedSpecsAndCategory it.title it.description).1
              (cleanPrice it.price)
              (getPrioritizedSpecsAndCategory it.title it.description).2.1)
            (statsLookup stats (getPrioritizedSpecsAndCategory it.title it.description).2.1
              (fc.getD (getPrioritizedSpecsAndCategory it.title it.description).2.2)).2
            (fc.getD (getPrioritizedSpecsAndCategory it.title it.description).2.2)
            (cleanPrice it.price)
            (statsLookup stats (getPrioritizedSpecsAndCategory it.title it.description).2.1
              (fc.getD (getPrioritizedSpecsAndCategory it.title it.description).2.2)).1).2
        components_used :=
          (riskSignals
            (statsLookup stats (getPrioritizedSpecsAndCategory it.title it.description).2.1
              (fc.getD (getPrioritizedSpecsAndCategory it.title it.description).2.2)).1
            (getPrioritizedSpecsAndCategory it.title it.description).1
            (cleanPrice it.price)
            (getPrioritizedSpecsAndCategory it.title it.description).2.1).map
            (fun s => s.src) } := by
  unfold calcRiskBase
  simp only [if_neg h]

theorem specsC3_eval : getPrioritizedSpecsAndCategory itemC3.title itemC3.description
    = (⟨none, none, none⟩, str "GENERICO", str "USED") := by decide

theorem statsLookupC3_eval : statsLookup statsC3 (str "GENERICO") (str "NEW")
    = (some ⟨500, some 100, none⟩, true) := by decide

/-- C3 counterexample: at the claim's own scenario the fallback-inflated
`final_z` is −1 while the same computation without the inflation gives 0 —
the inflated value is *more* negative, so it is not less-negative as
claimed. -/
theorem claim3_counterexample :
    (calcRiskBase statsC3 itemC3 (some (str "NEW"))).market_analysis.estimated_market_value
      = 600 ∧
    (calcRiskBase statsC3 itemC3 (some (str "NEW"))).market_analysis.composite_z_score
      = -1 ∧
    compositeZNoInflation (riskSignals (statsLookup statsC3 (str "GENERICO") (str "NEW")).1
      (getPrioritizedSpecsAndCategory itemC3.title itemC3.description).1 500
      (str "GENERICO")) = 0 ∧
    ¬ ((-1 : ℚ) > 0) := by
  have h5 : ¬ cleanPrice itemC3.price < 5 := by
    norm_num [show cleanPrice itemC3.price = 500 from rfl]
  rw [calcRiskBase_ma_ge5 statsC3 itemC3 (some (str "NEW")) h5]
  simp only [specsC3_eval, Option.getD_some, statsLookupC3_eval,
    show cleanPrice itemC3.price = 500 from rfl]
  refine ⟨?_, ?_, ?_, by norm_num⟩ <;>
    norm_num [riskSignals, compSignal, catSignal, getStatsForComponent, compositeZEst,
      compositeZNoInflation, zwSum, wpSum, wSum, fallbackStdevRef,
      show weightOf (str "category") = 1/10 from rfl]

/-- C3 amended: with the USED fallback node (mean 500, stdev 100) and a NEW
listing at price 500, the fallback inflation yields `estimated_value = 600`
and `final_z = (price − inflated estimate) / fallback stdev = (500 − 600) /
100 = −1`, a *more negative* value than the 0 obtained without the
inflation; the fallback lookup is indeed taken. -/
theorem claim3_amended :
    (statsLookup statsC3 (str "GENERICO") (str "NEW")).2 = true ∧
    (calcRiskBase statsC3 itemC3 (some (str "NEW"))).market_analysis.estimated_market_value
      = 600 ∧
    (calcRiskBase statsC3 itemC3 (some (str "NEW"))).market_analysis.composite_z_score
      = (500 - 600) / 100 ∧
    (calcRiskBase statsC3 itemC3 (some (str "NEW"))).market_analysis.composite_z_score
      < compositeZNoInflation (riskSignals
        (statsLookup statsC3 (str "GENERICO") (str "NEW")).1
        (getPrioritizedSpecsAndCategory itemC3.title itemC3.description).1 500
        (str "GENERICO")) := by
  have h5 : ¬ cleanPrice itemC3.price < 5 := by
    norm_num [show cleanPrice itemC3.price = 500 from rfl]
  rw [calcRiskBase_ma_ge5 statsC3 itemC3 (some (str "NEW")) h5]
  simp only [specsC3_eval, Option.getD_some, statsLookupC3_eval,
    show cleanPrice itemC3.price = 500 from rfl]
  refine ⟨by trivial, ?_, ?_, ?_⟩ <;>
    norm_num [riskSignals, compSignal, catSignal, getStatsForComponent, compositeZEst,
      compositeZNoInflation, zwSum, wpSum, wSum, fallbackStdevRef,
      show weightOf (str "category") = 1/10 from rfl]

/-!
## C8: spam truncation
-/

theorem truncateLines_eq_takeWhile (ls : List Str) :
    truncateLines ls = ls.takeWhile fun l => lineHits l ≤ 3 := by
  induction ls with
  | nil => rfl
  | cons l rest ih =>
    by_cases h : 3 < lineHits l
    · simp [truncateLines, List.takeWhile_cons, if_pos h, decide_eq_true_eq, h,
        Nat.not_le_of_lt h]
    · simp [truncateLines, List.takeWhile_cons, if_neg h, decide_eq_true_eq,
        Nat.le_of_not_lt h, ih]

/-- C8: `smart_truncate_spam` keeps exactly the longest prefix of lines in
which the count of brand/model noise indicators stays at or below 3 (the
first line exceeding the threshold and everything after it is dropped), and
a description in which no line exceeds the threshold is returned
unchanged. -/
theorem claim8_smart_truncate_spam :
    (∀ text : Str, smartTruncateSpam text =
      joinLines ((splitLines text).takeWhile fun l => lineHits l ≤ 3)) ∧
    (∀ text : Str, (∀ l ∈ splitLines text, lineHits l ≤ 3) →
      smartTruncateSpam text = text) := by
  constructor
  · intro text
    unfold smartTruncateSpam
    rw [truncateLines_eq_takeWhile]
  · intro text h
    unfold smartTruncateSpam
    rw [truncateLines_eq_takeWhile, List.takeWhile_eq_self_iff.mpr (by simpa using h)]
    exact joinLines_splitLines text

theorem claim8_smart_truncate_spam_witness :
    (∀ l ∈ splitLines (str "vendo portatil i7\nmuy cuidado"), lineHits l ≤ 3) ∧
    smartTruncateSpam (str "vendo portatil i7\nmuy cuidado")
      = str "vendo portatil i7\nmuy cuidado" := by
  have h : ∀ l ∈ splitLines (str "vendo portatil i7\nmuy cuidado"), lineHits l ≤ 3 := by
    decide
  exact ⟨h, claim8_smart_truncate_spam.2 (str "vendo portatil i7\nmuy cuidado") h⟩

/-!
## C7: extract_ram
-/

def natMax (a b : Nat) : Nat := if a ≤ b then b else a

theorem le_natMax_left (a b : Nat) : a ≤ natMax a b := by
  unfold natMax; split <;> omega

theorem le_natMax_right (a b : Nat) : b ≤ natMax a b := by
  unfold natMax; split <;> omega

theorem natMax_le {a b c : Nat} (h1 : a ≤ c) (h2 : b ≤ c) : natMax a b ≤ c := by
  unfold natMax; split <;> omega

theorem natMax_eq_right {a b : Nat} (h : a ≤ b) : natMax a b = b := by
  unfold natMax; split <;> omega

theorem natMax_eq_left {a b : Nat} (h : b ≤ a) : natMax a b = a := by
  unfold natMax; split <;> omega

theorem le_foldl_natMax (l : List Nat) (a : Nat) : a ≤ l.foldl natMax a := by
  induction l generalizing a with
  | nil => exact le_refl a
  | cons x xs ih =>
    simp only [List.foldl_cons]
    exact le_trans (le_natMax_left a x) (ih (natMax a x))

theorem mem_le_foldl_natMax (l : List Nat) (b : Nat) (hb : b ∈ l) :
    ∀ a : Nat, b ≤ l.foldl natMax a := by
  induction l with
  | nil => cases hb
  | cons x xs ih =>
    intro a
    simp only [List.foldl_cons]
    rcases List.mem_cons.mp hb with rfl | h
    · exact le_trans (le_natMax_right a b) (le_foldl_natMax xs (natMax a b))
    · exact ih h (natMax a x)

theorem foldl_natMax_le (l : List Nat) (v : Nat) (h : ∀ x ∈ l, x ≤ v) :
    ∀ a : Nat, a ≤ v → l.foldl natMax a ≤ v := by
  induction l with
  | nil => intro a ha; exact ha
  | cons x xs ih =>
    intro a ha
    simp only [List.foldl_cons]
    exact ih (fun y hy => h y (List.mem_cons_of_mem x hy)) (natMax a x)
      (natMax_le ha (h x (List.mem_cons_self x xs)))

theorem foldl_natMax_mem (l : List Nat) : ∀ a : Nat,
    l.foldl natMax a = a ∨ l.foldl natMax a ∈ l := by
  induction l with
  | nil => intro a; exact Or.inl rfl
  | cons x xs ih =>
    intro a
    simp only [List.foldl_cons]
    rcases ih (natMax a x) with h2 | h2
    · rcases Nat.le_total a x with hax | hax
      · right
        rw [h2, natMax_eq_right hax]
        exact List.mem_cons_self x xs
      · left
        rw [h2, natMax_eq_left hax]
    · exact Or.inr (List.mem_cons_of_mem x h2)

def ramQual (mx v : Nat) : Bool := isValidRam v && decide (v ≤ mx)

theorem ramSelect_eq (mx : Nat) (l : List Nat) : ∀ (best : Nat) (acc : Option Str),
    ramSelect mx l best acc =
      if ∃ v ∈ l, ramQual mx v = true ∧ best < v then
        some (fmtRam ((l.filter (ramQual mx)).foldl natMax best))
      else acc := by
  induction l with
  | nil => intro best acc; simp [ramSelect]
  | cons v vs ih =>
    intro best acc
    by_cases hq : ramQual mx v = true
    · have hfil : (v :: vs).filter (ramQual mx) = v :: vs.filter (ramQual mx) := by
        simp [List.filter_cons, hq]
      by_cases hb : best < v
      · have hstep : ramSelect mx (v :: vs) best acc
            = ramSelect mx vs v (some (fmtRam v)) := by
          have hq2 : (isValidRam v && decide (v ≤ mx) && decide (best < v)) = true := by
            simp only [ramQual] at hq
            simp [hq, hb]
          simp [ramSelect, hq2]
        rw [hstep]
        have hc : ∃ u ∈ v :: vs, ramQual mx u = true ∧ best < u :=
          ⟨v, List.mem_cons_self v vs, hq, hb⟩
        rw [if_pos hc, hfil]
        simp only [List.foldl_cons]
        rw [natMax_eq_right (Nat.le_of_lt hb)]
        rw [ih v (some (fmtRam v))]
        by_cases hex : ∃ u ∈ vs, ramQual mx u = true ∧ v < u
        · rw [if_pos hex]
        · rw [if_neg hex]
          have heq : (vs.filter (ramQual mx)).foldl natMax v = v := by
            apply Nat.le_antisymm
            · refine foldl_natMax_le _ v (fun y hy => ?_) v (le_refl v)
              rcases List.mem_filter.mp hy with ⟨hmem, hq2⟩
              by_contra hlt
              exact hex ⟨y, hmem, hq2, Nat.lt_of_not_le hlt⟩
            · exact le_foldl_natMax _ v
          rw [heq]
      · have hstep : ramSelect mx (v :: vs) best acc = ramSelect mx vs best acc := by
          have hq2 : (isValidRam v && decide (v ≤ mx) && decide (best < v)) = false := by
            simp [hb]
          simp [ramSelect, hq2]
        rw [hstep, ih best acc]
        have hexiff : (∃ u ∈ v :: vs, ramQual mx u = true ∧ best < u)
            ↔ ∃ u ∈ vs, ramQual mx u = true ∧ best < u := by
          constructor
          · rintro ⟨u, hu, hq3, hlt⟩
            rcases List.mem_cons.mp hu with rfl | hu2
            · exact absurd hlt hb
            · exact ⟨u, hu2, hq3, hlt⟩
          · rintro ⟨u, hu, hq3, hlt⟩
            exact ⟨u, List.mem_cons_of_mem v hu, hq3, hlt⟩
        by_cases hex : ∃ u ∈ vs, ramQual mx u = true ∧ best < u
        · rw [if_pos (hexiff.mpr hex), if_pos hex, hfil]
          simp only [List.foldl_cons]
          rw [natMax_eq_left (Nat.le_of_not_lt hb)]
        · rw [if_neg (fun h => hex (hexiff.mp h)), if_neg hex]
    · have hstep : ramSelect mx (v :: vs) best acc = ramSelect mx vs best acc := by
        have hq4 : (isValidRam v && decide (v ≤ mx)) = false := by
          have h5 : ramQual mx v = false := Bool.eq_false_iff.mpr hq
          simpa [ramQual] using h5
        simp [ramSelect, hq4]
      rw [hstep, ih best acc]
      have hfil : (v :: vs).filter (ramQual mx) = vs.filter (ramQual mx) := by
        simp [List.filter_cons, hq]
      have hexiff : (∃ u ∈ v :: vs, ramQual mx u = true ∧ best < u)
          ↔ ∃ u ∈ vs, ramQual mx u = true ∧ best < u := by
        constructor
        · rintro ⟨u, hu, hq3, hlt⟩
          rcases List.mem_cons.mp hu with rfl | hu2
          · exact absurd hq3 hq
          · exact ⟨u, hu2, hq3, hlt⟩
        · rintro ⟨u, hu, hq3, hlt⟩
          exact ⟨u, List.mem_cons_of_mem v hu, hq3, hlt⟩
      rw [hfil]
      by_cases hex : ∃ u ∈ vs, ramQual mx u = true ∧ best < u
      · rw [if_pos (hexiff.mpr hex), if_pos hex]
      · rw [if_neg (fun h => hex (hexiff.mp h)), if_neg hex]

theorem isValidRam_pos (v : Nat) (h : isValidRam v = true) : 0 < v := by
  unfold isValidRam at h
  have := of_decide_eq_true h
  fin_cases this <;> omega

theorem ramQual_pos {mx v : Nat} (h : ramQual mx v = true) : 0 < v := by
  unfold ramQual at h
  exact isValidRam_pos v (Bool.and_eq_true_iff.mp h).1

/-- C7: `extract_ram` accepts exactly the `RE_RAM` matches that lie in the
commercial whitelist {4,6,8,12,16,20,24,32,40,48,64} and do not exceed
`max_gb` (`ramQual`), returns the largest qualifying match formatted
`"<N>GB"`, returns `None` when no match qualifies, and in particular
`extract_ram("128GB SSD 8GB RAM") = "8GB"`. -/
theorem claim7_extract_ram :
    (∀ (t : Str) (mx : Nat) (s : Str), extractRam t mx = some s ↔
      ∃ v ∈ ramFindall t, ramQual mx v = true ∧
        (∀ u ∈ ramFindall t, ramQual mx u = true → u ≤ v) ∧ s = fmtRam v) ∧
    (∀ (t : Str) (mx : Nat), extractRam t mx = none ↔
      ∀ v ∈ ramFindall t, ramQual mx v = false) ∧
    extractRam (str "128GB SSD 8GB RAM") 128 = some (str "8GB") := by
  have hcond : ∀ (t : Str) (mx : Nat),
      (∃ v ∈ ramFindall t, ramQual mx v = true ∧ 0 < v) ↔
      ∃ v ∈ ramFindall t, ramQual mx v = true := by
    intro t mx
    constructor
    · rintro ⟨v, hv, hq, _⟩; exact ⟨v, hv, hq⟩
    · rintro ⟨v, hv, hq⟩; exact ⟨v, hv, hq, ramQual_pos hq⟩
  refine ⟨?_, ?_, by decide⟩
  · intro t mx s
    unfold extractRam
    rw [ramSelect_eq mx (ramFindall t) 0 none]
    by_cases hc : ∃ v ∈ ramFindall t, ramQual mx v = true ∧ 0 < v
    · rw [if_pos hc]
      constructor
      · intro hsome
        have hs : s = fmtRam ((List.filter (ramQual mx) (ramFindall t)).foldl natMax 0) :=
          (Option.some_inj.mp hsome).symm
        set M := (List.filter (ramQual mx) (ramFindall t)).foldl natMax 0 with hM
        have hMmem : M ∈ List.filter (ramQual mx) (ramFindall t) := by
          rcases foldl_natMax_mem (List.filter (ramQual mx) (ramFindall t)) 0 with h0 | hm
          · exfalso
            rcases hc with ⟨v, hv, hq, hpos⟩
            have hvf : v ∈ List.filter (ramQual mx) (ramFindall t) :=
              List.mem_filter.mpr ⟨hv, hq⟩
            have := mem_le_foldl_natMax _ v hvf 0
            omega
          · exact hm
        rcases List.mem_filter.mp hMmem with ⟨hMl, hMq⟩
        refine ⟨M, hMl, hMq, ?_, hs⟩
        intro u hu hqu
        exact mem_le_foldl_natMax _ u (List.mem_filter.mpr ⟨hu, hqu⟩) 0
      · rintro ⟨v, hv, hq, hmax, rfl⟩
        have hle : (List.filter (ramQual mx) (ramFindall t)).foldl natMax 0 = v := by
          apply Nat.le_antisymm
          · refine foldl_natMax_le _ v (fun y hy => ?_) 0 (Nat.le_of_lt (ramQual_pos hq))
            rcases List.mem_filter.mp hy with ⟨hyl, hyq⟩
            exact hmax y hyl hyq
          · exact mem_le_foldl_natMax _ v (List.mem_filter.mpr ⟨hv, hq⟩) 0
        rw [hle]
    · rw [if_neg hc]
      constructor
      · intro h; cases h
      · rintro ⟨v, hv, hq, _, _⟩
        exact absurd ((hcond t mx).mpr ⟨v, hv, hq⟩) hc
  · intro t mx
    unfold extractRam
    rw [ramSelect_eq mx (ramFindall t) 0 none]
    by_cases hc : ∃ v ∈ ramFindall t, ramQual mx v = true ∧ 0 < v
    · rw [if_pos hc]
      constructor
      · intro h; cases h
      · intro hall
        rcases (hcond t mx).mp hc with ⟨v, hv, hq⟩
        rw [hall v hv] at hq
        cases hq
    · rw [if_neg hc]
      constructor
      · intro _ v hv
        by_contra hne
        have hq : ramQual mx v = true := by
          cases h2 : ramQual mx v
          · exact absurd h2 hne
          · rfl
        exact hc ((hcond t mx).mpr ⟨v, hv, hq⟩)
      · intro _; rfl

theorem claim7_extract_ram_witness :
    extractRam (str "128GB SSD 8GB RAM") 128 = some (str "8GB") ∧
    (8 ∈ ramFindall (str "128GB SSD 8GB RAM") ∧ ramQual 128 8 = true) :=
  ⟨claim7_extract_ram.2.2, by decide⟩

/-!
## C6: category priority on "cambio portátil AMD Ryzen 5 por un Macbook"
-/

/-- C6 counterexample: the claim's own example title contains both
"macbook" and "amd ryzen 5", yet `get_prioritized_specs_and_category`
classifies it APPLE — the title-level "macbook" short-circuit fires before
the general classifier, so the AMD-override never runs. -/
theorem claim6_counterexample :
    containsSub (toLowerStr (str "cambio portátil AMD Ryzen 5 por un Macbook"))
      (str "macbook") = true ∧
    containsSub (toLowerStr (str "cambio portátil AMD Ryzen 5 por un Macbook"))
      (str "amd ryzen 5") = true ∧
    (getPrioritizedSpecsAndCategory (str "cambio portátil AMD Ryzen 5 por un Macbook")
      (str "")).2.1 = str "APPLE" := by
  refine ⟨by decide, by decide, by decide⟩

/-- C6 amended: with "macbook" in the *title* the title-level short-circuit
classifies the listing APPLE regardless of the AMD token; the AMD-override
of `classify_prime_category` yields a non-APPLE category only when the
short-circuit does not fire — the same words with "macbook" only in the
description (title "cambio portátil AMD Ryzen 5", description "por un
Macbook") extract cpu "AMD RYZEN 5" and classify GENERICO. -/
theorem claim6_amended :
    (getPrioritizedSpecsAndCategory (str "cambio portátil AMD Ryzen 5 por un Macbook")
      (str "")).2.1 = str "APPLE" ∧
    (getPrioritizedSpecsAndCategory (str "cambio portátil AMD Ryzen 5")
      (str "por un Macbook")).2.1 = str "GENERICO" ∧
    (getPrioritizedSpecsAndCategory (str "cambio portátil AMD Ryzen 5")
      (str "por un Macbook")).1.cpu = some (str "AMD RYZEN 5") := by
  refine ⟨by decide, by decide, by decide⟩

/-!
## C5: Apple-vs-PC conflict resolution
-/

/-- A CPU string reporting Apple silicon (values like "APPLE M2"). -/
def isAppleCpuStr (s : Str) : Bool := startsWith s (str "APPLE")

/-- Every model string `applyCpuCapture` can ever place in `cpu_models`
(line 605-629): `RYZEN<d>`, `I<d>`, `M<d>` with optional variant, and the
low-end/ARM word tokens. -/
def candidateUniverse : List Str :=
  [str "RYZEN3", str "RYZEN5", str "RYZEN7", str "RYZEN9",
   str "I3", str "I5", str "I7", str "I9",
   str "M1", str "M2", str "M3",
   str "M1 PRO", str "M1 MAX", str "M1 ULTRA",
   str "M2 PRO", str "M2 MAX", str "M2 ULTRA",
   str "M3 PRO", str "M3 MAX", str "M3 ULTRA",
   str "CELERON", str "PENTIUM", str "ATOM", str "XEON",
   str "SNAPDRAGON", str "SQ1", str "SQ2", str "SQ3"]

/-- The candidates that survive the Apple purge. -/
def nonAppleCandidates : List Str :=
  [str "RYZEN3", str "RYZEN5", str "RYZEN7", str "RYZEN9",
   str "I3", str "I5", str "I7", str "I9",
   str "CELERON", str "PENTIUM", str "ATOM", str "XEON",
   str "SNAPDRAGON", str "SQ1", str "SQ2", str "SQ3"]

theorem candidate_not_m (m : Str) (hU : m ∈ candidateUniverse)
    (hM : mPurgeMatch m = false) : m ∈ nonAppleCandidates := by
  fin_cases hU <;> first
    | decide
    | exact absurd hM (by decide)

theorem cleanCpuFromBest_not_apple (brand : Option Str) (best : Str)
    (hb : best ∈ nonAppleCandidates) :
    isAppleCpuStr (cleanCpuFromBest brand best false) = false := by
  fin_cases hb <;> rfl

theorem foldl_pickMax_mem (xs : List Str) : ∀ s : Str,
    xs.foldl (fun a b => if strLtB a b then b else a) s = s ∨
    xs.foldl (fun a b => if strLtB a b then b else a) s ∈ xs := by
  induction xs with
  | nil => intro s; exact Or.inl rfl
  | cons x rest ih =>
    intro s
    simp only [List.foldl_cons]
    by_cases h : strLtB s x = true
    · rw [if_pos h]
      rcases ih x with h2 | h2
      · right; rw [h2]; exact List.mem_cons_self x rest
      · exact Or.inr (List.mem_cons_of_mem x h2)
    · rw [if_neg h]
      rcases ih s with h2 | h2
      · exact Or.inl h2
      · exact Or.inr (List.mem_cons_of_mem x h2)

theorem maxStr_mem (l : List Str) (m : Str) (h : maxStr l = some m) : m ∈ l := by
  cases l with
  | nil => cases h
  | cons s rest =>
    have hm : rest.foldl (fun a b => if strLtB a b then b else a) s = m :=
      Option.some_inj.mp h
    rcases foldl_pickMax_mem rest s with h2 | h2
    · have hms : m = s := hm.symm.trans h2
      rw [hms]; exact List.mem_cons_self s rest
    · rw [hm] at h2; exact List.mem_cons_of_mem s h2

/-- C5 amended: the purge keys on the *captured* CPU brand (the first brand
token) and the candidate model set: whenever `has_pc_cpu` holds — the
captured brand is INTEL or AMD, or an I-series/Ryzen model candidate is
present — the resolved `cpu` field is never an Apple value.  (The original
claim quantified over all texts containing an Intel/AMD/Ryzen token; it
fails when the first brand token is "apple", see the counterexample.) -/
theorem claim5_amended (brand : Option Str) (models : List Str) (isApple : Bool)
    (hU : ∀ m ∈ models, m ∈ candidateUniverse)
    (hA : isApple = false → ∀ m ∈ models, mPurgeMatch m = false)
    (hPc : hasPcCpu brand models = true) :
    ∀ s, resolveCpuField brand models isApple = some s → isAppleCpuStr s = false := by
  intro s hs
  cases isApple with
  | true =>
    simp only [resolveCpuField, hPc, Bool.true_and, Bool.and_true, if_true, if_false,
      Bool.false_eq_true, cleanCpuString] at hs
    rcases Option.map_eq_some'.mp hs with ⟨best, hmax, hfa⟩
    have hbm := maxStr_mem _ best hmax
    rcases List.mem_filter.mp hbm with ⟨hmem, hp⟩
    have hpf : mPurgeMatch best = false := by
      cases h2 : mPurgeMatch best
      · rfl
      · rw [h2] at hp; cases hp
    rw [← hfa]
    exact cleanCpuFromBest_not_apple brand best
      (candidate_not_m best (hU best hmem) hpf)
  | false =>
    simp only [resolveCpuField, hPc, Bool.true_and, Bool.and_false, if_true, if_false,
      Bool.false_eq_true, cleanCpuString] at hs
    rcases Option.map_eq_some'.mp hs with ⟨best, hmax, hfa⟩
    have hbm := maxStr_mem _ best hmax
    rw [← hfa]
    exact cleanCpuFromBest_not_apple brand best
      (candidate_not_m best (hU best hbm) (hA rfl best hbm))

theorem claim5_amended_witness :
    resolveCpuField (some (str "INTEL")) [str "I5", str "M2"] true = some (str "INTEL I5") ∧
    isAppleCpuStr (str "INTEL I5") = false := by
  refine ⟨by decide, ?_⟩
  exact claim5_amended (some (str "INTEL")) [str "I5", str "M2"] true (by decide)
    (by decide) (by decide) (str "INTEL I5") (by decide)

/-- C5 counterexample: "apple m2 intel" contains both a standalone "intel"
token and an Apple M-series token, yet `extract_specs_regex` reports the
Apple CPU "APPLE M2" — the purge never fires because the *captured* brand
is the first brand token ("apple"), which is not in {INTEL, AMD}, and no
PC-class model candidate is present. -/
theorem claim5_counterexample :
    searchWordAlt [str "intel"] (toLowerStr (str "apple m2 intel")) = true ∧
    searchWordAlt [str "m2"] (toLowerStr (str "apple m2 intel")) = true ∧
    (extractSpecsRegex (str "apple m2 intel")).cpu = some (str "APPLE M2") ∧
    isAppleCpuStr (str "APPLE M2") = true := by
  refine ⟨by decide, by decide, by decide, by decide⟩

/-!
## C4: monotonicity of the composite z-score in price
-/

/-- The price-derivative contributed by one component signal:
`weight/stdev` when the signal is active, 0 otherwise. -/
def compCoeff (node : Option StatsNode) (ctype : Str) (name : Option Str) : ℚ :=
  match getStatsForComponent node ctype name with
  | some c => if 0 < c.stdev then weightOf ctype / c.stdev else 0
  | none => 0

def catCoeff (node : Option StatsNode) : ℚ :=
  match node with
  | some n =>
    match n.stdev with
    | some sd => if 0 < sd then weightOf (str "category") / sd else 0
    | none => 0
  | none => 0

def zSlope (node : Option StatsNode) (specs : SpecSet) : ℚ :=
  compCoeff node (str "cpu") specs.cpu + compCoeff node (str "gpu") specs.gpu +
  compCoeff node (str "ram") specs.ram + catCoeff node

theorem zwSum_append (a b : List Signal) : zwSum (a ++ b) = zwSum a + zwSum b := by
  simp [zwSum]

theorem wSum_append (a b : List Signal) : wSum (a ++ b) = wSum a + wSum b := by
  simp [wSum]

theorem wpSum_append (a b : List Signal) : wpSum (a ++ b) = wpSum a + wpSum b := by
  simp [wpSum]

theorem weightOf_nonneg (k : Str) : 0 ≤ weightOf k := by
  unfold weightOf WEIGHTS
  simp only [lookupA]
  split_ifs <;> norm_num

theorem compSignal_zw_diff (node : Option StatsNode) (t : Str) (nm : Option Str)
    (p q : ℚ) : zwSum (compSignal node t nm q) - zwSum (compSignal node t nm p)
      = (q - p) * compCoeff node t nm := by
  unfold compSignal compCoeff
  cases h : getStatsForComponent node t nm with
  | none => simp [zwSum]
  | some c =>
    by_cases hsd : 0 < c.stdev
    · simp only [if_pos hsd, zwSum, List.map_cons, List.map_nil, List.sum_cons,
        List.sum_nil]
      field_simp
      ring
    · simp [if_neg hsd, zwSum]

theorem catSignal_zw_diff (node : Option StatsNode) (cat : Str) (p q : ℚ) :
    zwSum (catSignal node cat q) - zwSum (catSignal node cat p)
      = (q - p) * catCoeff node := by
  unfold catSignal catCoeff
  cases node with
  | none => simp [zwSum]
  | some n =>
    cases hsd2 : n.stdev with
    | none => simp only [hsd2]; simp [zwSum]
    | some sd =>
      simp only [hsd2]
      by_cases hsd : 0 < sd
      · simp only [if_pos hsd, zwSum, List.map_cons, List.map_nil, List.sum_cons,
          List.sum_nil]
        field_simp
        ring
      · simp [if_neg hsd, zwSum]

theorem catSignal_w_eq (node : Option StatsNode) (cat : Str) (p q : ℚ) :
    wSum (catSignal node cat p) = wSum (catSignal node cat q) := by
  unfold catSignal
  cases node with
  | none => rfl
  | some n =>
    cases hsd2 : n.stdev with
    | none => simp only [hsd2]
    | some sd =>
      simp only [hsd2]
      by_cases hsd : 0 < sd <;> simp [hsd, wSum]

theorem catSignal_wp_eq (node : Option StatsNode) (cat : Str) (p q : ℚ) :
    wpSum (catSignal node cat p) = wpSum (catSignal node cat q) := by
  unfold catSignal
  cases node with
  | none => rfl
  | some n =>
    cases hsd2 : n.stdev with
    | none => simp only [hsd2]
    | some sd =>
      simp only [hsd2]
      by_cases hsd : 0 < sd <;> simp [hsd, wSum, wpSum]

theorem catSignal_nil_iff (node : Option StatsNode) (cat : Str) (p q : ℚ) :
    catSignal node cat p = [] ↔ catSignal node cat q = [] := by
  unfold catSignal
  cases node with
  | none => simp
  | some n =>
    cases hsd2 : n.stdev with
    | none => simp only [hsd2]
    | some sd =>
      simp only [hsd2]
      by_cases hsd : 0 < sd <;> simp [hsd]

theorem compSignal_w_eq (node : Option StatsNode) (t : Str) (nm : Option Str) (p q : ℚ) :
    wSum (compSignal node t nm p) = wSum (compSignal node t nm q) := by
  unfold compSignal
  cases h : getStatsForComponent node t nm with
  | none => rfl
  | some c => by_cases hsd : 0 < c.stdev <;> simp [hsd, wSum]

theorem compSignal_wp_eq (node : Option StatsNode) (t : Str) (nm : Option Str) (p q : ℚ) :
    wpSum (compSignal node t nm p) = wpSum (compSignal node t nm q) := by
  unfold compSignal
  cases h : getStatsForComponent node t nm with
  | none => rfl
  | some c => by_cases hsd : 0 < c.stdev <;> simp [hsd, wpSum]

theorem compSignal_nil_iff (node : Option StatsNode) (t : Str) (nm : Option Str)
    (p q : ℚ) : compSignal node t nm p = [] ↔ compSignal node t nm q = [] := by
  unfold compSignal
  cases h : getStatsForComponent node t nm with
  | none => simp
  | some c => by_cases hsd : 0 < c.stdev <;> simp [hsd]

theorem riskSignals_zw_diff (node : Option StatsNode) (specs : SpecSet) (cat : Str)
    (p q : ℚ) : zwSum (riskSignals node specs q cat) - zwSum (riskSignals node specs p cat)
      = (q - p) * zSlope node specs := by
  unfold riskSignals zSlope
  simp only [zwSum_append]
  have h1 := compSignal_zw_diff node (str "cpu") specs.cpu p q
  have h2 := compSignal_zw_diff node (str "gpu") specs.gpu p q
  have h3 := compSignal_zw_diff node (str "ram") specs.ram p q
  have h4 := catSignal_zw_diff node cat p q
  linarith [h1, h2, h3, h4]

theorem riskSignals_w_eq (node : Option StatsNode) (specs : SpecSet) (cat : Str)
    (p q : ℚ) : wSum (riskSignals node specs p cat) = wSum (riskSignals node specs q cat) := by
  unfold riskSignals
  simp only [wSum_append]
  rw [compSignal_w_eq node (str "cpu") specs.cpu p q,
    compSignal_w_eq node (str "gpu") specs.gpu p q,
    compSignal_w_eq node (str "ram") specs.ram p q, catSignal_w_eq node cat p q]

theorem riskSignals_wp_eq (node : Option StatsNode) (specs : SpecSet) (cat : Str)
    (p q : ℚ) : wpSum (riskSignals node specs p cat) = wpSum (riskSignals node specs q cat) := by
  unfold riskSignals
  simp only [wpSum_append]
  rw [compSignal_wp_eq node (str "cpu") specs.cpu p q,
    compSignal_wp_eq node (str "gpu") specs.gpu p q,
    compSignal_wp_eq node (str "ram") specs.ram p q, catSignal_wp_eq node cat p q]

theorem riskSignals_nil_iff (node : Option StatsNode) (specs : SpecSet) (cat : Str)
    (p q : ℚ) : riskSignals node specs p cat = [] ↔ riskSignals node specs q cat = [] := by
  unfold riskSignals
  simp only [List.append_eq_nil]
  rw [compSignal_nil_iff node (str "cpu") specs.cpu p q,
    compSignal_nil_iff node (str "gpu") specs.gpu p q,
    compSignal_nil_iff node (str "ram") specs.ram p q, catSignal_nil_iff node cat p q]

theorem weightOf_cpu : weightOf (str "cpu") = 1/2 := rfl

theorem weightOf_gpu : weightOf (str "gpu") = 3/10 := rfl

theorem weightOf_ram : weightOf (str "ram") = 1/10 := rfl

theorem weightOf_category : weightOf (str "category") = 1/10 := rfl

theorem compCoeff_nonneg (node : Option StatsNode) (t : Str) (nm : Option Str) :
    0 ≤ compCoeff node t nm := by
  unfold compCoeff
  cases h : getStatsForComponent node t nm with
  | none => norm_num
  | some c =>
    by_cases hsd : 0 < c.stdev
    · simp only [if_pos hsd]
      exact div_nonneg (weightOf_nonneg t) (le_of_lt hsd)
    · simp [hsd]

theorem catCoeff_nonneg (node : Option StatsNode) : 0 ≤ catCoeff node := by
  unfold catCoeff
  cases node with
  | none => norm_num
  | some n =>
    cases hsd2 : n.stdev with
    | none => simp only [hsd2]; norm_num
    | some sd =>
      simp only [hsd2]
      by_cases hsd : 0 < sd
      · simp only [if_pos hsd]
        exact div_nonneg (weightOf_nonneg (str "category")) (le_of_lt hsd)
      · simp [hsd]

theorem compCoeff_pos (node : Option StatsNode) (t : Str) (nm : Option Str)
    (hw : 0 < weightOf t) (h : compSignal node t nm 0 ≠ []) : 0 < compCoeff node t nm := by
  unfold compSignal at h
  unfold compCoeff
  cases hg : getStatsForComponent node t nm with
  | none => simp only [hg] at h; exact absurd rfl h
  | some c =>
    simp only [hg] at h
    by_cases hsd : 0 < c.stdev
    · simp only [if_pos hsd]
      exact div_pos hw hsd
    · simp [hsd] at h

theorem catCoeff_pos (node : Option StatsNode) (cat : Str)
    (h : catSignal node cat 0 ≠ []) : 0 < catCoeff node := by
  unfold catSignal at h
  unfold catCoeff
  cases node with
  | none => exact absurd rfl h
  | some n =>
    cases hsd2 : n.stdev with
    | none => simp only [hsd2] at h; exact absurd rfl h
    | some sd =>
      simp only [hsd2] at h ⊢
      by_cases hsd : 0 < sd
      · simp only [if_pos hsd]
        exact div_pos (by rw [weightOf_category]; norm_num) hsd
      · simp [hsd] at h

theorem compSignal_w_nonneg (node : Option StatsNode) (t : Str) (nm : Option Str)
    (p : ℚ) : 0 ≤ wSum (compSignal node t nm p) := by
  unfold compSignal
  cases h : getStatsForComponent node t nm with
  | none => norm_num [wSum]
  | some c =>
    by_cases hsd : 0 < c.stdev <;> simp [hsd, wSum, weightOf_nonneg]

theorem catSignal_w_nonneg (node : Option StatsNode) (cat : Str) (p : ℚ) :
    0 ≤ wSum (catSignal node cat p) := by
  unfold catSignal
  cases node with
  | none => norm_num [wSum]
  | some n =>
    cases hsd2 : n.stdev with
    | none => simp only [hsd2]; norm_num [wSum]
    | some sd =>
      simp only [hsd2]
      by_cases hsd : 0 < sd <;> simp [hsd, wSum, weightOf_nonneg]

theorem compSignal_w_pos (node : Option StatsNode) (t : Str) (nm : Option Str)
    (p : ℚ) (hw : 0 < weightOf t) (h : compSignal node t nm p ≠ []) :
    0 < wSum (compSignal node t nm p) := by
  unfold compSignal at h ⊢
  cases hg : getStatsForComponent node t nm with
  | none => simp only [hg] at h; exact absurd rfl h
  | some c =>
    simp only [hg] at h ⊢
    by_cases hsd : 0 < c.stdev
    · simp [hsd, wSum, hw]
    · simp [hsd] at h

theorem catSignal_w_pos (node : Option StatsNode) (cat : Str) (p : ℚ)
    (h : catSignal node cat p ≠ []) : 0 < wSum (catSignal node cat p) := by
  unfold catSignal at h ⊢
  cases node with
  | none => exact absurd rfl h
  | some n =>
    cases hsd2 : n.stdev with
    | none => simp only [hsd2] at h; exact absurd rfl h
    | some sd =>
      simp only [hsd2] at h ⊢
      by_cases hsd : 0 < sd
      · simp [hsd, wSum, weightOf_category]
      · simp [hsd] at h

theorem riskSignals_w_pos (node : Option StatsNode) (specs : SpecSet) (cat : Str) (p : ℚ)
    (h : riskSignals node specs p cat ≠ []) : 0 < wSum (riskSignals node specs p cat) := by
  have n1 := compSignal_w_nonneg node (str "cpu") specs.cpu p
  have n2 := compSignal_w_nonneg node (str "gpu") specs.gpu p
  have n3 := compSignal_w_nonneg node (str "ram") specs.ram p
  have n4 := catSignal_w_nonneg node cat p
  unfold riskSignals at h ⊢
  simp only [wSum_append]
  by_cases h1 : compSignal node (str "cpu") specs.cpu p = []
  · by_cases h2 : compSignal node (str "gpu") specs.gpu p = []
    · by_cases h3 : compSignal node (str "ram") specs.ram p = []
      · by_cases h4 : catSignal node cat p = []
        · exact absurd (by simp [h1, h2, h3, h4]) h
        · have := catSignal_w_pos node cat p h4
          linarith
      · have := compSignal_w_pos node (str "ram") specs.ram p
          (by rw [weightOf_ram]; norm_num) h3
        linarith
    · have := compSignal_w_pos node (str "gpu") specs.gpu p
        (by rw [weightOf_gpu]; norm_num) h2
      linarith
  · have := compSignal_w_pos node (str "cpu") specs.cpu p
      (by rw [weightOf_cpu]; norm_num) h1
    linarith

theorem zSlope_pos (node : Option StatsNode) (specs : SpecSet) (cat : Str) (p : ℚ)
    (h : riskSignals node specs p cat ≠ []) : 0 < zSlope node specs := by
  have n1 := compCoeff_nonneg node (str "cpu") specs.cpu
  have n2 := compCoeff_nonneg node (str "gpu") specs.gpu
  have n3 := compCoeff_nonneg node (str "ram") specs.ram
  have n4 := catCoeff_nonneg node
  unfold riskSignals at h
  unfold zSlope
  by_cases h1 : compSignal node (str "cpu") specs.cpu p = []
  · by_cases h2 : compSignal node (str "gpu") specs.gpu p = []
    · by_cases h3 : compSignal node (str "ram") specs.ram p = []
      · by_cases h4 : catSignal node cat p = []
        · exact absurd (by simp [h1, h2, h3, h4]) h
        · have := catCoeff_pos node cat
            (fun h0 => h4 ((catSignal_nil_iff node cat 0 p).mp h0))
          linarith
      · have := compCoeff_pos node (str "ram") specs.ram
          (by rw [weightOf_ram]; norm_num)
          (fun h0 => h3 ((compSignal_nil_iff node (str "ram") specs.ram 0 p).mp h0))
        linarith
    · have := compCoeff_pos node (str "gpu") specs.gpu
        (by rw [weightOf_gpu]; norm_num)
        (fun h0 => h2 ((compSignal_nil_iff node (str "gpu") specs.gpu 0 p).mp h0))
      linarith
  · have := compCoeff_pos node (str "cpu") specs.cpu
      (by rw [weightOf_cpu]; norm_num)
      (fun h0 => h1 ((compSignal_nil_iff node (str "cpu") specs.cpu 0 p).mp h0))
    linarith

/-- C4: for a fixed stats table, category, condition and specs yielding at
least one usable signal, the composite `final_z` computed by
`calculate_risk_base` is strictly increasing in price, and the +30
increment (z < −1.5) and further +40 increment (z < −2.5) are each added
exactly once (total 70 below −2.5, 30 between, 0 above).  The hypothesis
`hfb` excludes the configuration (NEW-fallback onto a node whose recorded
stdev is 0) on which the source raises `ZeroDivisionError` instead of
computing a z-score. -/
theorem claim4_z_monotone_increments (node : Option StatsNode) (specs : SpecSet)
    (cat cond : Str) (fb : Bool)
    (hsig : riskSignals node specs 0 cat ≠ [])
    (hfb : fb = true → cond = str "NEW" → 0 < fallbackStdevRef node) :
    (∀ p q : ℚ, p < q →
      (compositeZEst (riskSignals node specs p cat) fb cond p node).1 <
      (compositeZEst (riskSignals node specs q cat) fb cond q node).1) ∧
    (∀ z : ℚ, priceRiskPoints z =
      if z < -(5/2) then 70 else if z < -(3/2) then 30 else 0) := by
  constructor
  · intro p q hpq
    have hnp : riskSignals node specs p cat ≠ [] :=
      fun h0 => hsig ((riskSignals_nil_iff node specs cat p 0).mp h0)
    have hnq : riskSignals node specs q cat ≠ [] :=
      fun h0 => hsig ((riskSignals_nil_iff node specs cat q 0).mp h0)
    have hweq : wSum (riskSignals node specs p cat) = wSum (riskSignals node specs q cat) :=
      riskSignals_w_eq node specs cat p q
    have hwp : 0 < wSum (riskSignals node specs p cat) :=
      riskSignals_w_pos node specs cat p hnp
    have hwq : 0 < wSum (riskSignals node specs q cat) := hweq ▸ hwp
    unfold compositeZEst
    rw [if_neg hnp, if_neg hnq]
    simp only []
    rw [if_pos hwp, if_pos hwq]
    by_cases hfbc : (fb && decide (cond = str "NEW")) = true
    · simp only [if_pos hfbc]
      have hsref : 0 < fallbackStdevRef node := by
        rcases Bool.and_eq_true_iff.mp hfbc with ⟨hfb1, hc1⟩
        exact hfb hfb1 (of_decide_eq_true hc1)
      have he : wpSum (riskSignals node specs p cat)
          = wpSum (riskSignals node specs q cat) := riskSignals_wp_eq node specs cat p q
      rw [hweq, he]
      gcongr
    · simp only [if_neg hfbc]
      rw [hweq]
      have hdiff := riskSignals_zw_diff node specs cat p q
      have hslope := zSlope_pos node specs cat p hnp
      have hlt : zwSum (riskSignals node specs p cat)
          < zwSum (riskSignals node specs q cat) := by
        nlinarith [mul_pos (sub_pos.mpr hpq) hslope]
      gcongr
  · intro z
    unfold priceRiskPoints
    split_ifs <;> try norm_num
    all_goals linarith

theorem claim4_z_monotone_increments_witness :
    (compositeZEst
        (riskSignals (some ⟨500, some 100, none⟩) ⟨none, none, none⟩ 300 (str "X"))
        false (str "USED") 300 (some ⟨500, some 100, none⟩)).1 <
      (compositeZEst
        (riskSignals (some ⟨500, some 100, none⟩) ⟨none, none, none⟩ 400 (str "X"))
        false (str "USED") 400 (some ⟨500, some 100, none⟩)).1 ∧
    priceRiskPoints (-2) = 30 := by
  have hsig : riskSignals (some ⟨500, some 100, none⟩) ⟨none, none, none⟩ 0 (str "X")
      ≠ [] := by
    norm_num [riskSignals, compSignal, catSignal, getStatsForComponent]
  have hfb : false = true → str "USED" = str "NEW"
      → 0 < fallbackStdevRef (some ⟨500, some 100, none⟩) := by
    intro h hc
    simp at h
  have h := claim4_z_monotone_increments (some ⟨500, some 100, none⟩) ⟨none, none, none⟩
    (str "X") (str "USED") false hsig hfb
  refine ⟨h.1 300 400 (by norm_num), ?_⟩
  rw [h.2 (-2)]
  norm_num

/-!
## C9: aggregation thresholds
-/

def lookup2 {β : Type} (t : List (Str × List (Str × β))) (k1 k2 : Str) : Option β :=
  (lookupA t k1).bind fun l => lookupA l k2

theorem lookupA_map_keyed {α β : Type} (g : α → β) (l : List (Str × α)) (k : Str) :
    lookupA (l.map fun p => (p.1, g p.2)) k = (lookupA l k).map g := by
  induction l with
  | nil => rfl
  | cons p rest ih =>
    by_cases hk : p.1 = k
    · simp [lookupA, hk]
    · simp only [List.map_cons, lookupA, if_neg hk]
      exact ih

theorem lookupA_eq_none {β : Type} (l : List (Str × β)) (k : Str)
    (h : k ∉ l.map Prod.fst) : lookupA l k = none := by
  induction l with
  | nil => rfl
  | cons p rest ih =>
    simp only [List.map_cons, List.mem_cons] at h
    push_neg at h
    have hne : ¬(p.1 = k) := fun he => h.1 he.symm
    simp only [lookupA, if_neg hne]
    exact ih h.2

theorem lookupA_cons_self {β : Type} (p : Str × β) (rest : List (Str × β)) :
    lookupA (p :: rest) p.1 = some p.2 := by
  unfold lookupA
  rw [if_pos rfl]

theorem lookupA_cons_ne {β : Type} (p : Str × β) (rest : List (Str × β)) (k : Str)
    (h : ¬(p.1 = k)) : lookupA (p :: rest) k = lookupA rest k := by
  unfold lookupA
  rw [if_neg h]
  cases rest <;> rfl

theorem mem_keys_filterMap {α β : Type} (g : α → Option β) (l : List (Str × α)) (x : Str)
    (h : x ∈ (l.filterMap fun p => (g p.2).map fun b => (p.1, b)).map Prod.fst) :
    x ∈ l.map Prod.fst := by
  induction l with
  | nil => simp at h
  | cons p rest ih =>
    simp only [List.filterMap_cons] at h
    cases hg : g p.2 with
    | none =>
      rw [hg] at h
      simp only [Option.map_none'] at h
      exact List.mem_cons_of_mem _ (ih h)
    | some b =>
      rw [hg] at h
      simp only [Option.map_some', List.map_cons, List.mem_cons] at h
      rcases h with h | h
      · simp only [List.map_cons, List.mem_cons]
        exact Or.inl h
      · exact List.mem_cons_of_mem _ (ih h)

theorem lookupA_filterMap_keyed {α β : Type} (g : α → Option β) (l : List (Str × α))
    (k : Str) (hnd : (l.map Prod.fst).Nodup) :
    lookupA (l.filterMap fun p => (g p.2).map fun b => (p.1, b)) k
      = (lookupA l k).bind g := by
  induction l with
  | nil => rfl
  | cons p rest ih =>
    rw [List.map_cons] at hnd
    rcases List.nodup_cons.mp hnd with ⟨hnotin, hnd2⟩
    by_cases hk : p.1 = k
    · subst hk
      rw [lookupA_cons_self p rest]
      cases hg : g p.2 with
      | none =>
        simp only [List.filterMap_cons, hg, Option.map_none', Option.some_bind']
        exact lookupA_eq_none _ p.1
          fun hmem => hnotin (mem_keys_filterMap g rest p.1 hmem)
      | some b =>
        simp only [List.filterMap_cons, hg, Option.map_some', Option.some_bind']
        exact lookupA_cons_self (p.1, b) _
    · rw [lookupA_cons_ne p rest k hk]
      cases hg : g p.2 with
      | none =>
        simp only [List.filterMap_cons, hg, Option.map_none']
        exact ih hnd2
      | some b =>
        simp only [List.filterMap_cons, hg, Option.map_some']
        rw [lookupA_cons_ne (p.1, b) _ k hk]
        exact ih hnd2

theorem groupShape :
    (fun q : Str × GroupData =>
      if q.2.prices.length < 2 then none else some (q.1, mkGroupStats q.2))
    = fun q : Str × GroupData =>
        ((fun g : GroupData =>
          if g.prices.length < 2 then none else some (mkGroupStats g)) q.2).map
          fun b => (q.1, b) := by
  funext q
  by_cases hc : q.2.prices.length < 2 <;> simp [hc]

theorem compShape :
    (fun p : Str × List ℚ =>
      if 2 ≤ p.2.length then
        some (p.1, (⟨meanQ p.2, medianQ p.2, sampleVarQ p.2, p.2.length⟩ : CompEntry))
      else none)
    = fun p : Str × List ℚ =>
        ((fun ps : List ℚ =>
          if 2 ≤ ps.length then
            some (⟨meanQ ps, medianQ ps, sampleVarQ ps, ps.length⟩ : CompEntry)
          else none) p.2).map
          fun b => (p.1, b) := by
  funext p
  by_cases hc : 2 ≤ p.2.length <;> simp [hc]

theorem finalStats_prime_lookup (md : MarketData)
    (hnd : ∀ cat conds, lookupA md.prime cat = some conds → (conds.map Prod.fst).Nodup) :
    ∀ cat cond, lookup2 (finalStatsOf md).prime cat cond
      = (lookup2 md.prime cat cond).bind fun g =>
          if g.prices.length < 2 then none else some (mkGroupStats g) := by
  intro cat cond
  unfold lookup2 finalStatsOf
  dsimp only
  rw [lookupA_map_keyed (fun conds : List (Str × GroupData) =>
    conds.filterMap fun q =>
      if q.2.prices.length < 2 then none else some (q.1, mkGroupStats q.2)) md.prime cat]
  cases hcat : lookupA md.prime cat with
  | none => rfl
  | some conds =>
    simp only [Option.map_some', Option.some_bind']
    rw [groupShape]
    exact lookupA_filterMap_keyed
      (fun g : GroupData => if g.prices.length < 2 then none else some (mkGroupStats g))
      conds cond (hnd cat conds hcat)

/-- C9 amended: a category×condition group is present in the final stats
iff its collected price list has at least 2 samples, and then records the
mean, median, sample variance (the square of the recorded `stdev`, which
is `statistics.stdev`, the n−1 *sample* deviation — not the
population-style one the claim names) and count, with per-component
entries present iff their price list has at least 2 samples; the flat
SECONDARY/UNCERTAIN entries are present iff their pool has more than 3
samples and record mean and count only; absent groups are omitted, never
zero-filled. -/
theorem claim9_amended (md : MarketData)
    (hnd : ∀ cat conds, lookupA md.prime cat = some conds → (conds.map Prod.fst).Nodup) :
    (∀ cat cond g, lookup2 md.prime cat cond = some g →
      lookup2 (finalStatsOf md).prime cat cond
        = if g.prices.length < 2 then none else some (mkGroupStats g)) ∧
    (∀ cat cond, lookup2 md.prime cat cond = none →
      lookup2 (finalStatsOf md).prime cat cond = none) ∧
    (∀ g : GroupData, mkGroupStats g =
      ⟨meanQ g.prices, medianQ g.prices, sampleVarQ g.prices, g.prices.length,
       mkCompEntries g.cpu, mkCompEntries g.ram, mkCompEntries g.gpu⟩) ∧
    (∀ cl : List (Str × List ℚ), (cl.map Prod.fst).Nodup → ∀ name,
      lookupA (mkCompEntries cl) name
        = (lookupA cl name).bind fun ps =>
            if 2 ≤ ps.length then
              some ⟨meanQ ps, medianQ ps, sampleVarQ ps, ps.length⟩
            else none) ∧
    ((finalStatsOf md).broken
      = if 3 < md.secondaryBroken.length then
          some ⟨meanQ md.secondaryBroken, md.secondaryBroken.length⟩
        else none) ∧
    ((finalStatsOf md).accessory
      = if 3 < md.secondaryAccessory.length then
          some ⟨meanQ md.secondaryAccessory, md.secondaryAccessory.length⟩
        else none) ∧
    ((finalStatsOf md).uncertain
      = if 3 < md.uncertain.length then
          some ⟨meanQ md.uncertain, md.uncertain.length⟩
        else none) := by
  refine ⟨?_, ?_, fun g => rfl, ?_, rfl, rfl, rfl⟩
  · intro cat cond g hg
    rw [finalStats_prime_lookup md hnd cat cond, hg]
    rfl
  · intro cat cond hg
    rw [finalStats_prime_lookup md hnd cat cond, hg]
    rfl
  · intro cl hnd2 name
    unfold mkCompEntries
    rw [compShape]
    exact lookupA_filterMap_keyed
      (fun ps : List ℚ =>
        if 2 ≤ ps.length then
          some (⟨meanQ ps, medianQ ps, sampleVarQ ps, ps.length⟩ : CompEntry)
        else none)
      cl name hnd2

/-- A collected corpus with one PRIME group whose prices are 100 and 200. -/
def mdC9 : MarketData :=
  ⟨[(str "GENERICO", [(str "USED", ⟨[100, 200], [], [], []⟩)])], [], [], []⟩

theorem mkGroupStatsC9 : mkGroupStats ⟨[100, 200], [], [], []⟩
    = ⟨150, 150, 5000, 2, [], [], []⟩ := by
  unfold mkGroupStats mkCompEntries
  norm_num [meanQ, medianQ, sortQ, insertSorted, sampleVarQ, List.getD]

/-- C9 counterexample: for the group collecting prices {100, 200} the
recorded deviation is the *sample* one — the entry's variance is
(100−150)² + (200−150)² over n−1 = 1, i.e. 5000 — while the population
variance of those prices is 2500; the two differ, so the entry does not
record a population-style standard deviation. -/
theorem claim9_counterexample :
    lookup2 (finalStatsOf mdC9).prime (str "GENERICO") (str "USED")
      = some ⟨150, 150, 5000, 2, [], [], []⟩ ∧
    populationVarQ [100, 200] = 2500 ∧ (5000 : ℚ) ≠ 2500 := by
  refine ⟨?_, ?_, by norm_num⟩
  · have h1 : lookup2 mdC9.prime (str "GENERICO") (str "USED")
        = some ⟨[100, 200], [], [], []⟩ := by decide
    have hnd : ∀ cat conds, lookupA mdC9.prime cat = some conds →
        (conds.map Prod.fst).Nodup := by
      intro cat conds h
      unfold mdC9 at h
      unfold lookupA at h
      by_cases hc : str "GENERICO" = cat
      · rw [if_pos hc] at h
        cases h
        decide
      · rw [if_neg hc] at h
        cases h
    have h2 := finalStats_prime_lookup mdC9 hnd (str "GENERICO") (str "USED")
    rw [h2, h1]
    rw [show (some (⟨[100, 200], [], [], []⟩ : GroupData)).bind
        (fun g => if g.prices.length < 2 then none else some (mkGroupStats g))
        = if ([100, 200] : List ℚ).length < 2 then none
          else some (mkGroupStats ⟨[100, 200], [], [], []⟩) from rfl]
    rw [if_neg (by norm_num), mkGroupStatsC9]
  · norm_num [populationVarQ, meanQ]

theorem claim9_amended_witness :
    lookup2 (finalStatsOf mdC9).prime (str "GENERICO") (str "USED")
      = some (mkGroupStats ⟨[100, 200], [], [], []⟩) ∧
    (finalStatsOf mdC9).uncertain = none := by
  have hnd : ∀ cat conds, lookupA mdC9.prime cat = some conds →
      (conds.map Prod.fst).Nodup := by
    intro cat conds h
    unfold mdC9 at h
    unfold lookupA at h
    by_cases hc : str "GENERICO" = cat
    · rw [if_pos hc] at h
      cases h
      decide
    · rw [if_neg hc] at h
      cases h
  have h := claim9_amended mdC9 hnd
  constructor
  · have h1 := h.1 (str "GENERICO") (str "USED") ⟨[100, 200], [], [], []⟩ (by decide)
    rw [h1, if_neg (by norm_num)]
  · rw [h.2.2.2.2.2.2]
    rfl

/-!
## C10: listings without cpu and ram never feed PRIME statistics
-/

theorem lookupA_updateAssoc {β : Type} (l : List (Str × β)) (k : Str) (dflt : β)
    (f : β → β) (k2 : Str) :
    lookupA (updateAssoc l k dflt f) k2
      = if k = k2 then some (f ((lookupA l k).getD dflt)) else lookupA l k2 := by
  induction l with
  | nil =>
    by_cases hk : k = k2
    · subst hk
      simp [updateAssoc, lookupA]
    · simp [updateAssoc, lookupA, hk, fun h : k = k2 => hk h]
  | cons q rest ih =>
    by_cases hq : q.1 = k
    · subst hq
      simp only [updateAssoc, if_pos rfl, if_true]
      by_cases hk : q.1 = k2
      · subst hk
        rw [lookupA_cons_self (q.1, f q.2) rest, if_pos rfl, lookupA_cons_self q rest]
        rfl
      · rw [lookupA_cons_ne (q.1, f q.2) rest k2 hk, if_neg hk,
          lookupA_cons_ne q rest k2 hk]
    · simp only [updateAssoc, if_neg hq]
      by_cases hk : q.1 = k2
      · subst hk
        have hne : ¬(k = q.1) := fun h => hq h.symm
        rw [lookupA_cons_self q (updateAssoc rest k dflt f), if_neg hne,
          lookupA_cons_self q rest]
      · rw [lookupA_cons_ne q (updateAssoc rest k dflt f) k2 hk, ih,
          lookupA_cons_ne q rest k2 hk]
        by_cases h2 : k = k2
        · subst h2
          rw [if_pos rfl, if_pos rfl, lookupA_cons_ne q rest k hq]
        · rw [if_neg h2, if_neg h2]

theorem processItem_prime_sound (md : MarketData) (it : Item) (cat cond : Str)
    (g : GroupData) (p : ℚ)
    (hl : lookup2 (processItem md it).prime cat cond = some g) (hp : p ∈ g.prices) :
    (∃ g0, lookup2 md.prime cat cond = some g0 ∧ p ∈ g0.prices) ∨
    (((getPrioritizedSpecsAndCategory it.title it.description).1.cpu ≠ none ∨
      (getPrioritizedSpecsAndCategory it.title it.description).1.ram ≠ none) ∧
     p = cleanPrice it.price) := by
  simp only [processItem] at hl
  split at hl
  · exact Or.inl ⟨g, hl, hp⟩
  · split at hl
    · exact Or.inl ⟨g, hl, hp⟩
    · rename_i h1 h2
      split at hl
      · exact Or.inl ⟨g, hl, hp⟩
      · split at hl
        · exact Or.inl ⟨g, hl, hp⟩
        · -- PRIME append branch
          have hcr : (getPrioritizedSpecsAndCategory it.title it.description).1.cpu ≠ none ∨
              (getPrioritizedSpecsAndCategory it.title it.description).1.ram ≠ none := by
            push_neg at h2
            by_cases hcpu : (getPrioritizedSpecsAndCategory it.title it.description).1.cpu
                = none
            · exact Or.inr (h2.2 hcpu)
            · exact Or.inl hcpu
          unfold lookup2 at hl
          rw [lookupA_updateAssoc md.prime
            (getPrioritizedSpecsAndCategory it.title it.description).2.1 [] _ cat] at hl
          by_cases hcat : (getPrioritizedSpecsAndCategory it.title it.description).2.1 = cat
          · rw [if_pos hcat, Option.some_bind'] at hl
            subst hcat
            rw [lookupA_updateAssoc _
              (detectConditionFromData it (toLowerStr (it.title ++ [' '] ++ it.description)))
              emptyGroup _ cond] at hl
            by_cases hcond : detectConditionFromData it
                (toLowerStr (it.title ++ [' '] ++ it.description)) = cond
            · rw [if_pos hcond] at hl
              subst hcond
              have hg : g = { prices := _, cpu := _, ram := _, gpu := _ } :=
                (Option.some_inj.mp hl).symm
              rw [hg] at hp
              simp only [List.mem_append, List.mem_singleton] at hp
              rcases hp with hp | hp
              · cases hold : lookupA md.prime
                    (getPrioritizedSpecsAndCategory it.title it.description).2.1 with
                | none =>
                  rw [hold] at hp
                  simp only [Option.getD_none] at hp
                  rw [show lookupA ([] : List (Str × GroupData))
                      (detectConditionFromData it
                        (toLowerStr (it.title ++ [' '] ++ it.description)))
                      = none from rfl] at hp
                  simp only [Option.getD_none] at hp
                  simp [emptyGroup] at hp
                | some conds =>
                  rw [hold] at hp
                  simp only [Option.getD_some] at hp
                  cases holdc : lookupA conds
                      (detectConditionFromData it
                        (toLowerStr (it.title ++ [' '] ++ it.description))) with
                  | none =>
                    rw [holdc] at hp
                    simp only [Option.getD_none] at hp
                    simp [emptyGroup] at hp
                  | some g0 =>
                    rw [holdc] at hp
                    simp only [Option.getD_some] at hp
                    refine Or.inl ⟨g0, ?_, hp⟩
                    unfold lookup2
                    rw [hold, Option.some_bind']
                    exact holdc
              · exact Or.inr ⟨hcr, hp⟩
            · rw [if_neg hcond] at hl
              cases hold : lookupA md.prime
                  (getPrioritizedSpecsAndCategory it.title it.description).2.1 with
              | none =>
                rw [hold] at hl
                simp only [Option.getD_none] at hl
                rw [show lookupA ([] : List (Str × GroupData)) cond = none from rfl] at hl
                cases hl
              | some conds =>
                rw [hold] at hl
                simp only [Option.getD_some] at hl
                refine Or.inl ⟨g, ?_, hp⟩
                unfold lookup2
                rw [hold, Option.some_bind']
                exact hl
          · rw [if_neg hcat] at hl
            exact Or.inl ⟨g, hl, hp⟩

theorem processItems_fold_sound (items : List Item) : ∀ (md : MarketData)
    (cat cond : Str) (g : GroupData) (p : ℚ),
    lookup2 (items.foldl processItem md).prime cat cond = some g → p ∈ g.prices →
    (∃ g0, lookup2 md.prime cat cond = some g0 ∧ p ∈ g0.prices) ∨
    ∃ it ∈ items,
      (((getPrioritizedSpecsAndCategory it.title it.description).1.cpu ≠ none ∨
        (getPrioritizedSpecsAndCategory it.title it.description).1.ram ≠ none) ∧
       p = cleanPrice it.price) := by
  induction items with
  | nil =>
    intro md cat cond g p hl hp
    exact Or.inl ⟨g, hl, hp⟩
  | cons it rest ih =>
    intro md cat cond g p hl hp
    simp only [List.foldl_cons] at hl
    rcases ih (processItem md it) cat cond g p hl hp with ⟨g0, hg0, hpg0⟩ | ⟨it2, hmem, hrest⟩
    · rcases processItem_prime_sound md it cat cond g0 p hg0 hpg0 with hleft | hright
      · exact Or.inl hleft
      · exact Or.inr ⟨it, List.mem_cons_self it rest, hright⟩
    · exact Or.inr ⟨it2, List.mem_cons_of_mem it hmem, hrest⟩

/-- C10: a listing from which neither a CPU nor a RAM value was extracted
never contributes to the PRIME category×condition statistics: even when
its market segment is PRIME, its price is diverted to the UNCERTAIN pool,
and every price underlying a PRIME group of a processed batch comes from a
listing with at least one of cpu or ram detected. -/
theorem claim10_no_specs_diverted :
    (∀ (md : MarketData) (it : Item),
      (getPrioritizedSpecsAndCategory it.title it.description).1.cpu = none →
      (getPrioritizedSpecsAndCategory it.title it.description).1.ram = none →
      determineMarketSegment (toLowerStr it.title) (cleanPrice it.price)
        (detectConditionFromData it (toLowerStr (it.title ++ [' '] ++ it.description)))
        (getPrioritizedSpecsAndCategory it.title it.description).1 = str "PRIME" →
      processItem md it = { md with uncertain := md.uncertain ++ [cleanPrice it.price] }) ∧
    (∀ (items : List Item) (cat cond : Str) (g : GroupData),
      lookup2 (processItems items).prime cat cond = some g →
      ∀ p ∈ g.prices, ∃ it ∈ items,
        (((getPrioritizedSpecsAndCategory it.title it.description).1.cpu ≠ none ∨
          (getPrioritizedSpecsAndCategory it.title it.description).1.ram ≠ none) ∧
         cleanPrice it.price = p)) := by
  constructor
  · intro md it hcpu hram hseg
    simp only [processItem]
    rw [hseg]
    rw [if_neg (by decide : ¬(str "PRIME" = str "JUNK")),
      if_pos (Or.inr ⟨hcpu, hram⟩)]
  · intro items cat cond g hl p hp
    rcases processItems_fold_sound items emptyMarketData cat cond g p hl hp with
      ⟨g0, hg0, _⟩ | ⟨it, hmem, hcr, hpr⟩
    · rw [show lookup2 emptyMarketData.prime cat cond = none from rfl] at hg0
      cases hg0
    · exact ⟨it, hmem, hcr, hpr.symm⟩

theorem claim10_no_specs_diverted_witness :
    processItem emptyMarketData ⟨str "portatil", str "", .scalar (.num 500), none, false⟩
      = { emptyMarketData with uncertain := [500] } ∧
    (getPrioritizedSpecsAndCategory (str "portatil") (str "")).1.cpu = none ∧
    determineMarketSegment (toLowerStr (str "portatil")) 500 (str "USED")
      ⟨none, none, none⟩ = str "PRIME" := by
  refine ⟨?_, by decide, by decide⟩
  have h := claim10_no_specs_diverted.1 emptyMarketData
    ⟨str "portatil", str "", .scalar (.num 500), none, false⟩
    (by decide) (by decide) (by decide)
  rw [h]
  rfl
